import Mathlib

/-!
Shallow embedding of the query-intent classifier, the tabular analysis
handlers and the sentinel response parser of the chat_with_excel
repository (the re-architected `OpenAIService` of the unnamed source file,
together with the older variant in `src/utils/openai.ts`).

Modelling conventions.  JavaScript strings are Lean strings, manipulated
through their character lists; JavaScript numbers are rationals (`Rat`);
spreadsheet cells are strings or numbers; a missing property is `Option.none`.
`parseFloat`, `Number` coercion, JavaScript truthiness, the concrete regular
expressions of the source, `JSON.parse` (restricted to decimal literals
without exponents and to the string escapes `\" \\ \n \t`, which is all the
application produces), and `Array.prototype.sort` (a stable sort whose
comparator treats a NaN result as equality, as ECMAScript prescribes) are
given explicit executable models below.  `Infinity`, hexadecimal and
exponent literals are not modelled; the datasets of this application never
contain them.
-/

namespace ChatExcel

/-- A spreadsheet cell value: a JavaScript string or number. -/
inductive Value where
  | str (s : String)
  | num (q : Rat)
deriving Repr, DecidableEq

/-- A row: a JavaScript object, a key-ordered flat mapping of column names
to cells (`Object.keys` order is the list order). -/
abbrev Row := List (String × Value)

/-- The in-memory dataset (`ExcelData` in `src/types.ts`): a file name and
named sheets, each an ordered sequence of rows. -/
structure ExcelData where
  fileName : String
  sheets : List (String × List Row)
deriving Repr, DecidableEq

/-- JavaScript property access `row[h]`: first binding of the key, `none`
for a missing key (JavaScript `undefined`). -/
def jsLookup (row : Row) (h : String) : Option Value :=
  (row.find? (fun p => p.1 == h)).map (fun p => p.2)

/-- `Object.keys(row)` in insertion order. -/
def rowKeys (row : Row) : List String := row.map (fun p => p.1)

/-- The headers of a sheet: `Object.keys(rows[0])`, empty for an empty sheet. -/
def sheetHeaders (rows : List Row) : List String :=
  match rows with
  | [] => []
  | r :: _ => rowKeys r

/-- JavaScript `\s` (the whitespace characters this application meets). -/
def isWsChar (c : Char) : Bool := c = ' ' || c = '\t' || c = '\n' || c = '\r'

/-- JavaScript `\w`: ASCII letters, digits and underscore. -/
def isWordChar (c : Char) : Bool := c.isAlpha || c.isDigit || c = '_'

/-- ASCII lowercasing of a character (all identifiers this application
lowercases are ASCII). -/
def lowerChar (c : Char) : Char :=
  if 65 ≤ c.toNat && c.toNat ≤ 90 then Char.ofNat (c.toNat + 32) else c

/-- Model of `String.prototype.toLowerCase`, list-based so that concrete
terms reduce. -/
def jsToLower (s : String) : String := String.mk (s.data.map lowerChar)

/-- Substring test on character lists (`String.prototype.includes`). -/
def listContains (pat : List Char) : List Char → Bool
  | [] => pat.isEmpty
  | c :: t => pat.isPrefixOf (c :: t) || listContains pat (t)

/-- Model of JavaScript `s.includes(pat)`. -/
def strContains (s pat : String) : Bool := listContains pat.data s.data

/-- Numeric value of a digit character. -/
def digitVal (c : Char) : Nat := c.toNat - 48

/-- Value of a digit string, most significant first. -/
def digitsToNat (ds : List Char) : Nat := ds.foldl (fun a c => 10 * a + digitVal c) 0

/-- Value of an integer digit string with a fractional digit string
(built with the smart constructor `mkRat` so concrete terms reduce). -/
def ratOfDigits (ds fs : List Char) : Rat :=
  mkRat (digitsToNat ds * 10 ^ fs.length + digitsToNat fs) (10 ^ fs.length)

/-- Rational addition in smart-constructor form: the model of the source's
float `+`; agrees with `Rat` addition (`ratAdd_eq_add` below). -/
def ratAdd (a b : Rat) : Rat := mkRat (a.num * b.den + b.num * a.den) (a.den * b.den)

/-- Rational division in smart-constructor form (`sum / count`). -/
def ratDiv (a b : Rat) : Rat := Rat.divInt (a.num * b.den) (a.den * b.num)

/-- `Math.max` on two numbers. -/
def jsMax (a b : Rat) : Rat := if Rat.blt a b then b else a

/-- `Math.min` on two numbers. -/
def jsMin (a b : Rat) : Rat := if Rat.blt b a then b else a

/-- Trim trailing whitespace from a character list. -/
def trimEndList (cs : List Char) : List Char := (cs.reverse.dropWhile isWsChar).reverse

/-- Trim both ends of a character list (JavaScript `String.prototype.trim`). -/
def jsTrimList (cs : List Char) : List Char := trimEndList (cs.dropWhile isWsChar)

/-- Model of JavaScript `s.trim()`. -/
def jsTrim (s : String) : String := String.mk (jsTrimList s.data)

/-- Decimal-literal prefix after an optional sign: digits, then optionally a
point and more digits.  Returns the value and the unconsumed suffix;
`none` when no digit is present. -/
def decimalPrefix (cs1 : List Char) : Option (Rat × List Char) :=
  let ds := cs1.takeWhile Char.isDigit
  let r1 := cs1.drop ds.length
  match r1 with
  | '.' :: t =>
    let fs := t.takeWhile Char.isDigit
    if ds.isEmpty && fs.isEmpty then none
    else some (ratOfDigits ds fs, t.drop fs.length)
  | _ => if ds.isEmpty then none else some (ratOfDigits ds [], r1)

/-- Model of JavaScript `parseFloat` on a string: leading whitespace, an
optional sign, then the longest decimal-literal prefix; `none` models `NaN`. -/
def parseFloatChars (cs0 : List Char) : Option Rat :=
  let r :=
    match cs0.dropWhile isWsChar with
    | '-' :: t => (decimalPrefix t).map (fun p => -p.1)
    | '+' :: t => (decimalPrefix t).map (fun p => p.1)
    | cs => (decimalPrefix cs).map (fun p => p.1)
  r

/-- `parseFloat` applied to a cell: a number passes through (JavaScript
stringifies and reparses it, the identity on finite numbers). -/
def parseFloatV : Value → Option Rat
  | .num q => some q
  | .str s => parseFloatChars s.data

/-- `parseFloat(row[h])`: a missing property is `undefined` and parses to NaN. -/
def parseFloatOpt : Option Value → Option Rat
  | some v => parseFloatV v
  | none => none

/-- Full-string decimal literal (after the sign), for `Number` coercion. -/
def decimalAll (cs1 : List Char) : Option Rat :=
  match decimalPrefix cs1 with
  | some (q, []) => some q
  | _ => none

/-- Model of JavaScript `Number(string)`: the whole trimmed string must be a
decimal literal; a blank string coerces to `0`; `none` models `NaN`. -/
def numberOfChars (cs0 : List Char) : Option Rat :=
  let cs := jsTrimList cs0
  if cs.isEmpty then some 0
  else
    match cs with
    | '-' :: t => (decimalAll t).map Neg.neg
    | '+' :: t => decimalAll t
    | _ => decimalAll cs

/-- The global `isFinite(x)` on a possibly missing cell: `Number` coercion
must produce a finite number (every modelled number is finite). -/
def isFiniteCoerce : Option Value → Bool
  | some (.num _) => true
  | some (.str s) => (numberOfChars s.data).isSome
  | none => false

/-- JavaScript truthiness of a possibly missing cell. -/
def truthy : Option Value → Bool
  | some (.num q) => q != 0
  | some (.str s) => !s.isEmpty
  | none => false

/-- Integral numbers are rendered without a decimal point, as in JavaScript.
Non-integral rationals fall back to `num/den` rendering, a divergence from
float printing that only affects human-readable labels, never routing or
data payloads. -/
def ratToDisplay (q : Rat) : String := if q.den = 1 then toString q.num else toString q

/-- Template-literal interpolation of a cell (`String(v)`). -/
def displayValue : Value → String
  | .str s => s
  | .num q => ratToDisplay q

/-- Interpolation of a possibly missing cell (`undefined` prints as such). -/
def displayOpt : Option Value → String
  | some v => displayValue v
  | none => "undefined"

/-- Stable insertion of `x` after every earlier element `y` with `le y x`. -/
def insertStable (le : α → α → Bool) (x : α) : List α → List α
  | [] => [x]
  | y :: ys => if le y x then y :: insertStable le x ys else x :: y :: ys

/-- Model of `Array.prototype.sort`: a stable sort (insertion from the left),
the result ECMAScript guarantees for a consistent comparator. -/
def jsSort (le : α → α → Bool) (l : List α) : List α :=
  l.foldl (fun acc x => insertStable le x acc) []

/-- Descending comparator `(a, b) => key(b) - key(a)`; a NaN result (either
key unparseable) is treated as `+0`, i.e. equality, per ECMAScript. -/
def leDescBy (key : α → Option Rat) (a b : α) : Bool :=
  match key a, key b with
  | some x, some y => decide (y ≤ x)
  | _, _ => true

/-- Ascending comparator `(a, b) => key(a) - key(b)`, NaN treated as equality. -/
def leAscBy (key : α → Option Rat) (a b : α) : Bool :=
  match key a, key b with
  | some x, some y => decide (x ≤ y)
  | _, _ => true

/-- Leftmost-match scan of a regular expression: try the pattern at every
position, left to right (also at the end position, where literal patterns
fail). -/
def scanFrom (tryAt : List Char → Option α) : List Char → Option α
  | [] => tryAt []
  | c :: t =>
    match tryAt (c :: t) with
    | some r => some r
    | none => scanFrom tryAt (t)

/-- Leftmost-match scan carrying the previous character, for patterns with a
leading word-boundary assertion. -/
def scanFromB (tryAt : Option Char → List Char → Option α) :
    Option Char → List Char → Option α
  | prev, [] => tryAt prev []
  | prev, c :: t =>
    match tryAt prev (c :: t) with
    | some r => some r
    | none => scanFromB tryAt (some c) (t)

/-- `\b` between the previous character and the rest of the input. -/
def boundaryAt (prev : Option Char) (cs : List Char) : Bool :=
  (match prev with | some c => isWordChar c | none => false) !=
  (match cs with | c :: _ => isWordChar c | [] => false)

/-- Match a literal and return the rest of the input. -/
def stripLit (pat : List Char) (cs : List Char) : Option (List Char) :=
  if pat.isPrefixOf cs then some (cs.drop pat.length) else none

/-- `\s+` with maximal munch (every continuation in the source's patterns
starts with a non-whitespace character, so no backtracking is needed). -/
def stripWs1 (cs : List Char) : Option (List Char) :=
  match cs with
  | c :: t => if isWsChar c then some (t.dropWhile isWsChar) else none
  | [] => none

/-- `LIT\s+(\d+)` tried at one position; returns `parseInt` of the capture.
Used for `/top\s+(\d+)/` and the bottom/worst/lowest alternatives. -/
def tryTopNAt (lit : List Char) (cs : List Char) : Option Nat := do
  let r1 ← stripLit lit cs
  let r2 ← stripWs1 r1
  let ds := r2.takeWhile Char.isDigit
  if ds.isEmpty then none else some (digitsToNat ds)

/-- Model of `lowerQuestion.match(/top\s+(\d+)/)` with `parseInt` of the capture. -/
def matchTopN (s : String) : Option Nat := scanFrom (tryTopNAt "top".data) s.data

/-- Model of `/bottom\s+(\d+)|worst\s+(\d+)|lowest\s+(\d+)/` with
`parseInt(m[1] || m[2] || m[3])`: alternatives tried in order at each
position, leftmost match wins. -/
def matchBottomN (s : String) : Option Nat :=
  scanFrom (fun cs =>
    (tryTopNAt "bottom".data cs) <|> (tryTopNAt "worst".data cs) <|>
    (tryTopNAt "lowest".data cs)) s.data

/-- Model of `/ (top|bottom)\s+\d+/` (note the mandatory leading space). -/
def matchSpaceTopBottomN (s : String) : Bool :=
  (scanFrom (fun cs =>
    match cs with
    | ' ' :: t => (tryTopNAt "top".data t) <|> (tryTopNAt "bottom".data t)
    | _ => none) s.data).isSome

/-- `LIT\s*chart` tried at one position. -/
def tryChartAt (lit : List Char) (cs : List Char) : Option Unit := do
  let r1 ← stripLit lit cs
  let r2 := r1.dropWhile isWsChar
  let _ ← stripLit "chart".data r2
  some ()

/-- Model of `/(pie|bar|line)\s*chart/.test(lowerQuestion)`. -/
def matchChartRequest (s : String) : Bool :=
  (scanFrom (fun cs =>
    (tryChartAt "pie".data cs) <|> (tryChartAt "bar".data cs) <|>
    (tryChartAt "line".data cs)) s.data).isSome

/-- The analytic-keyword test
`/(top|bottom|highest|lowest|most|least|filter|sort|order|rank)/`. -/
def complexWords : List String :=
  ["top", "bottom", "highest", "lowest", "most", "least", "filter", "sort",
   "order", "rank"]

/-- Model of `isComplexQuery`. -/
def matchComplexQuery (s : String) : Bool := complexWords.any (fun w => strContains s w)

/-- `\b` after a digit of the capture: the next character must not be a word
character (or the input ends). -/
def wordBreakAfterDigit (rest : List Char) : Bool :=
  match rest with
  | [] => true
  | c :: _ => !isWordChar c

/-- Capture of `(\d+\.?\d*)\b` with the regex engine's backtracking order:
the full fractional capture first; failing its boundary, the engine gives
back the fractional digits (capture `digits.` — the boundary then sits
between `.` and a digit and always holds) and finally the dot.  The
extractor only uses `parseFloat` of the capture, so only the value is
returned. -/
def numCaptureB (cs : List Char) : Option Rat :=
  let ds := cs.takeWhile Char.isDigit
  if ds.isEmpty then none
  else
    let r1 := cs.drop ds.length
    match r1 with
    | '.' :: r2 =>
      let fs := r2.takeWhile Char.isDigit
      let r3 := r2.drop fs.length
      if !fs.isEmpty && wordBreakAfterDigit r3 then some (ratOfDigits ds fs)
      else some (ratOfDigits ds [])
    | _ => if wordBreakAfterDigit r1 then some (ratOfDigits ds []) else none

/-- Capture of `(\d+\.?\d*)` followed by `\s+LIT`, with the same
backtracking order threaded through the continuation. -/
def numCaptureThen (lit : List Char) (cs : List Char) : Option Rat :=
  let ds := cs.takeWhile Char.isDigit
  if ds.isEmpty then none
  else
    let r1 := cs.drop ds.length
    let cont := fun (rest : List Char) => ((stripWs1 rest).bind (stripLit lit)).isSome
    match r1 with
    | '.' :: r2 =>
      let fs := r2.takeWhile Char.isDigit
      let r3 := r2.drop fs.length
      if !fs.isEmpty && cont r3 then some (ratOfDigits ds fs)
      else if cont r2 then some (ratOfDigits ds [])
      else if cont ('.' :: r2) then some (ratOfDigits ds [])
      else none
    | _ => if cont r1 then some (ratOfDigits ds []) else none

/-- `\bH\s+W\s+(\d+\.?\d*)\b` tried at one position (`H` the lowercased
header, `W` an operator word, both embedded literally as in the source). -/
def tryCondP1At (hdr w : List Char) (prev : Option Char) (cs : List Char) :
    Option Rat := do
  if boundaryAt prev cs then
    let r1 ← stripLit hdr cs
    let r2 ← stripWs1 r1
    let r3 ← stripLit w r2
    let r4 ← stripWs1 r3
    numCaptureB r4
  else none

/-- `\bW\s+(\d+\.?\d*)\s+H` tried at one position. -/
def tryCondP2At (hdr w : List Char) (prev : Option Char) (cs : List Char) :
    Option Rat := do
  if boundaryAt prev cs then
    let r1 ← stripLit w cs
    let r2 ← stripWs1 r1
    numCaptureThen hdr r2
  else none

/-- Leftmost match of the first word order. -/
def matchCondP1 (hdr w : List Char) (cs : List Char) : Option Rat :=
  scanFromB (tryCondP1At hdr w) none cs

/-- Leftmost match of the second word order. -/
def matchCondP2 (hdr w : List Char) (cs : List Char) : Option Rat :=
  scanFromB (tryCondP2At hdr w) none cs

/-- Comparison operator of a numeric filter condition. -/
inductive CmpOp where
  | gt | lt | ge | le | eq
deriving Repr, DecidableEq

/-- The operator table of `extractNumericFilterCondition`, in the object
literal's insertion order. -/
def operatorTable : List (CmpOp × List String) :=
  [(.gt, [">", "above", "over", "greater than", "more than"]),
   (.lt, ["<", "below", "under", "less than"]),
   (.ge, [">=", "at least", "not less than"]),
   (.le, ["<=", "at most", "not more than"]),
   (.eq, ["==", "=", "is", "equal to", "equals"])]

/-- An extracted `{column, operator, value}` triple. -/
structure NumericCondition where
  column : String
  operator : CmpOp
  value : Rat
deriving Repr, DecidableEq

/-- `extractNumericFilterCondition(question, headers)`: for each header in
input order, for each operator and each of its words, try the two word
orders; first match wins. -/
def extractNumericFilterCondition (question : String) (headers : List String) :
    Option NumericCondition :=
  let lowerQ := (jsToLower question).data
  headers.findSome? (fun header =>
    if header.length < 1 then none
    else
      let hChars := (jsToLower header).data
      operatorTable.findSome? (fun ow =>
        ow.2.findSome? (fun w =>
          match matchCondP1 hChars w.data lowerQ with
          | some v => some (⟨header, ow.1, v⟩ : NumericCondition)
          | none =>
            match matchCondP2 hChars w.data lowerQ with
            | some v => some (⟨header, ow.1, v⟩ : NumericCondition)
            | none => none)))

/-- All structural matches of the extractor's scan, in scan order: headers
in input order, then operators, then words, then the two word orders. -/
def conditionCandidates (question : String) (headers : List String) :
    List NumericCondition :=
  let lowerQ := (jsToLower question).data
  headers.flatMap (fun header =>
    if header.length < 1 then []
    else
      let hChars := (jsToLower header).data
      operatorTable.flatMap (fun ow =>
        ow.2.flatMap (fun w =>
          ((matchCondP1 hChars w.data lowerQ).map
            (fun v => (⟨header, ow.1, v⟩ : NumericCondition))).toList ++
          ((matchCondP2 hChars w.data lowerQ).map
            (fun v => (⟨header, ow.1, v⟩ : NumericCondition))).toList)))

/-- Character class `[\w\s.'"-]` of the entity-extraction regex. -/
def isEntityChar (c : Char) : Bool :=
  isWordChar c || isWsChar c || c = '.' || c = '\'' || c = '"' || c = '-'

/-- `KW\s+([\w\s.'"-]+)` tried at one position: keyword, at least one
whitespace, then a non-empty capture of entity characters.  The modelled
capture keeps the whitespace run past its first character; the caller's
`trim` removes it, so the trimmed entity agrees with the regex capture. -/
def tryEntityAt (kw : List Char) (cs : List Char) : Option (List Char) := do
  let r1 ← stripLit kw cs
  match r1 with
  | c :: t =>
    if isWsChar c then
      let cap := t.takeWhile isEntityChar
      if cap.isEmpty then none else some cap
    else none
  | [] => none

/-- Model of `question.match(/(?:of|for|in|by)\s+([\w\s.'"-]+)/)`, returning
the raw first capture. -/
def matchEntity (cs : List Char) : Option (List Char) :=
  scanFrom (fun cs2 =>
    (tryEntityAt "of".data cs2) <|> (tryEntityAt "for".data cs2) <|>
    (tryEntityAt "in".data cs2) <|> (tryEntityAt "by".data cs2)) cs

/-- `String(v ?? '')`: a missing cell coalesces to the empty string. -/
def displayCoalesce : Option Value → String
  | some v => displayValue v
  | none => ""

/-- The symbol the source stores for each operator. -/
def cmpOpSymbol : CmpOp → String
  | .gt => ">"
  | .lt => "<"
  | .ge => ">="
  | .le => "<="
  | .eq => "=="

/-- The comparison `switch` of the numeric filter (strict `===` on numbers
is plain equality on the modelled rationals). -/
def applyCmp (op : CmpOp) (x v : Rat) : Bool :=
  match op with
  | .gt => decide (v < x)
  | .lt => decide (x < v)
  | .ge => decide (v ≤ x)
  | .le => decide (x ≤ v)
  | .eq => x == v

/-- The synonym table of the re-architected `findRelevantColumn`, in the
object literal's insertion order. -/
def relevantKeywords : List (String × String) :=
  [("score", "score"), ("runs", "runs"), ("century", "century"),
   ("centuries", "century"), ("attack", "Attack"), ("defense", "Defense"),
   ("hp", "HP"), ("speed", "Speed"), ("sales", "Sales"), ("price", "Price"),
   ("revenue", "Revenue")]

/-- Stage 1 of the column resolver: first column whose lowercased name
occurs in the question (the question itself is **not** lowercased here;
callers pass it in differing case). -/
def relevantStep1 (question : String) (columns : List String) : Option String :=
  columns.find? (fun col => strContains question (jsToLower col))

/-- Stage 2: synonym lookup — first table entry whose keyword occurs in the
question and that has a column whose lowercased name contains the
lowercased synonym. -/
def relevantStep2 (question : String) (columns : List String) : Option String :=
  relevantKeywords.findSome? (fun kv =>
    if strContains question kv.1 then
      columns.find? (fun c => strContains (jsToLower c) (jsToLower kv.2))
    else none)

/-- `firstRow[c] != null && !isNaN(parseFloat(firstRow[c]))`: the stage-3
test of the re-architected column resolver. -/
def firstRowNumeric (firstRow : Row) (c : String) : Bool :=
  match jsLookup firstRow c with
  | some v => (parseFloatV v).isSome
  | none => false

/-- Stage 3: first column whose value in the **first** row is present and
parses as a number; `none` when the row list is empty or no column
qualifies. -/
def relevantStep3 (columns : List String) (rows : List Row) : Option String :=
  match rows with
  | [] => none
  | firstRow :: _ => columns.find? (firstRowNumeric firstRow)

/-- `findRelevantColumn(question, columns, rows)` of the re-architected
service, translated with its early returns. -/
def findRelevantColumn (question : String) (columns : List String)
    (rows : List Row) : Option String :=
  match columns.find? (fun col => strContains question (jsToLower col)) with
  | some col => some col
  | none =>
    match relevantKeywords.findSome? (fun kv =>
      if strContains question kv.1 then
        columns.find? (fun c => strContains (jsToLower c) (jsToLower kv.2))
      else none) with
    | some col => some col
    | none =>
      match rows with
      | [] => none
      | firstRow :: _ =>
        match columns.filter (firstRowNumeric firstRow) with
        | [] => none
        | c :: _ => some c

/-- The identifier-like name fragments of the re-architected service. -/
def identifierColumns : List String :=
  ["name", "player", "pokemon", "title", "product", "item", "id"]

/-- `getIdentifierColumnName(rows, headers)`: first identifier-like header
whose first-row value is truthy, else the first header whose first-row
value is a non-numeric string, else none. -/
def getIdentifierColumnName (rows : List Row) (headers : List String) :
    Option String :=
  match rows with
  | [] => none
  | firstRow :: _ =>
    match identifierColumns.findSome? (fun idCol =>
      match headers.find? (fun h => strContains (jsToLower h) idCol) with
      | some h => if truthy (jsLookup firstRow h) then some h else none
      | none => none) with
    | some h => some h
    | none =>
      headers.find? (fun h =>
        match jsLookup firstRow h with
        | some (.str s) => (parseFloatChars s.data).isNone
        | _ => false)

/-- The synthesized placeholder `Row with ${headers[1]}: ${row[headers[1]]}`. -/
def rowPlaceholder (row : Row) (headers : List String) : String :=
  match headers.drop 1 with
  | h :: _ => "Row with " ++ h ++ ": " ++ displayOpt (jsLookup row h)
  | [] => "Row with undefined: undefined"

/-- `getRowIdentifier(row, headers)`: first truthy cell under an
identifier-like header, else the first non-numeric string cell (skipped,
per JavaScript falsiness, when the found header name is empty), else the
synthesized placeholder.  The returned cell need not be a string. -/
def getRowIdentifier (row : Row) (headers : List String) : Value :=
  match identifierColumns.findSome? (fun idCol =>
    match headers.find? (fun h => strContains (jsToLower h) idCol) with
    | some h => if truthy (jsLookup row h) then jsLookup row h else none
    | none => none) with
  | some v => v
  | none =>
    match headers.find? (fun h =>
      match jsLookup row h with
      | some (.str s) => (parseFloatChars s.data).isNone
      | _ => false) with
    | some h =>
      if h.isEmpty then .str (rowPlaceholder row headers)
      else (jsLookup row h).getD (.str (rowPlaceholder row headers))
    | none => .str (rowPlaceholder row headers)

/-- An extracted entity filter `{column, value}`. -/
structure EntityFilter where
  column : String
  value : String
deriving Repr, DecidableEq

/-- `extractFilterEntity(question, headers, rows)`: entity phrase after
of/for/in/by, matched case-insensitively against the values of the
string-typed columns. -/
def extractFilterEntity (question : String) (headers : List String)
    (rows : List Row) : Option EntityFilter :=
  let textColumns := headers.filter (fun h =>
    match rows with
    | [] => false
    | r :: _ => match jsLookup r h with | some (.str _) => true | _ => false)
  match matchEntity question.data with
  | none => none
  | some cap =>
    let queryEntity := jsTrim (String.mk cap)
    if queryEntity.isEmpty then none
    else
      (textColumns.find? (fun col =>
        rows.any (fun row =>
          strContains (jsToLower (displayCoalesce (jsLookup row col)))
            (jsToLower queryEntity)))).map
        (fun col => (⟨col, queryEntity⟩ : EntityFilter))

/-- A chart payload a handler embeds (`{type, title, data, xKey, yKey}`). -/
structure ChartPayload where
  type : String
  title : String
  data : List Row
  xKey : String
  yKey : String
deriving Repr, DecidableEq

/-- Per-sheet result of the single-extremum handler. -/
structure MaxMinSheet where
  sheetName : String
  metricColumn : String
  isMax : Bool
  row : Row
  value : Rat
  chart : ChartPayload
deriving Repr, DecidableEq

/-- The superlative keyword lists of `processMaxMinQuery`. -/
def maxKeywords : List String :=
  ["most", "highest", "maximum", "biggest", "largest", "top"]

/-- The minimum-direction keywords. -/
def minKeywords : List String :=
  ["least", "lowest", "minimum", "smallest", "bottom"]

/-- The extremum scan: strict improvement over a target initialized to
(minus) infinity — the first parseable row always wins, ties keep the
earlier row; rows whose metric cell does not parse are skipped. -/
def scanExtreme (isMax : Bool) (metric : String) (rows : List Row) :
    Option (Row × Rat) :=
  rows.foldl (fun acc row =>
    match parseFloatOpt (jsLookup row metric) with
    | none => acc
    | some v =>
      match acc with
      | none => some (row, v)
      | some (_, tv) =>
        if (isMax && decide (tv < v)) || (!isMax && decide (v < tv)) then
          some (row, v)
        else acc) none

/-- The per-sheet body of `processMaxMinQuery` (receives the lowercased
question, as the source passes `lowerQuestion` on). -/
def maxMinSheetResult (lowerQuestion : String) (sheetName : String)
    (rows : List Row) : Option MaxMinSheet :=
  match rows with
  | [] => none
  | firstRow :: _ =>
    let headers := rowKeys firstRow
    let numericColumns := headers.filter (fun h =>
      rows.any (fun row =>
        (jsLookup row h).isSome && (parseFloatOpt (jsLookup row h)).isSome))
    match findRelevantColumn lowerQuestion numericColumns rows with
    | none => none
    | some metricColumn =>
      let isMaxOperation := maxKeywords.any (fun kw => strContains lowerQuestion kw)
      let filter := extractFilterEntity lowerQuestion headers rows
      let workingRows :=
        match filter with
        | some f => rows.filter (fun row =>
            strContains (jsToLower (displayCoalesce (jsLookup row f.column)))
              (jsToLower f.value))
        | none => rows
      if workingRows.isEmpty then none
      else
        match scanExtreme isMaxOperation metricColumn workingRows with
        | none => none
        | some (targetRow, targetValue) =>
          let identifier := getRowIdentifier targetRow headers
          let xAxisLabel := match filter with | some f => f.column | none => "Identifier"
          some { sheetName, metricColumn, isMax := isMaxOperation,
                 row := targetRow, value := targetValue,
                 chart := { type := "bar",
                            title := (if isMaxOperation then "Highest " else "Lowest ") ++
                              metricColumn ++ " for " ++ displayValue identifier,
                            data := [if xAxisLabel = metricColumn then
                                       [(metricColumn, Value.num targetValue)]
                                     else
                                       [(xAxisLabel, identifier),
                                        (metricColumn, Value.num targetValue)]],
                            xKey := xAxisLabel, yKey := metricColumn } }

/-- `processMaxMinQuery(question, data)`: null unless a superlative keyword
is present without an explicit ` top/bottom N` pattern and some sheet
produced an analysis. -/
def processMaxMinQuery (question : String) (data : ExcelData) :
    Option (List MaxMinSheet) :=
  let lowerQuestion := jsToLower question
  let hasKeyword := (maxKeywords ++ minKeywords).any (fun kw =>
    strContains lowerQuestion kw)
  let isTopBottomN := matchSpaceTopBottomN lowerQuestion
  if !hasKeyword || isTopBottomN then none
  else
    let results := data.sheets.filterMap (fun sh =>
      maxMinSheetResult lowerQuestion sh.1 sh.2)
    if results.isEmpty then none else some results

/-- Per-sheet result of the top-N / bottom-N handlers. -/
structure RankedSheet where
  sheetName : String
  column : String
  rows : List Row
  identifierColumn : String
  chart : ChartPayload
deriving Repr, DecidableEq

/-- `getIdentifierColumnName(rows, headers) || headers[0]`, with JavaScript
falsiness of an empty found name. -/
def idColumnOrFirst (rows : List Row) (headers : List String) : String :=
  match getIdentifierColumnName rows headers with
  | some s => if s.isEmpty then headers.headD "undefined" else s
  | none => headers.headD "undefined"

/-- Per-sheet body of `processTopNQuery` (the original-case question is
passed through to the column resolver). -/
def topNSheetResult (question : String) (sheetName : String) (rows : List Row)
    (topN : Nat) : Option RankedSheet :=
  match rows with
  | [] => none
  | firstRow :: _ =>
    let headers := rowKeys firstRow
    let numericColumns := headers.filter (fun h =>
      rows.any (fun row => (parseFloatOpt (jsLookup row h)).isSome))
    if numericColumns.isEmpty then none
    else
      match findRelevantColumn question numericColumns rows with
      | none => none
      | some relevantColumn =>
        let key := fun row => parseFloatOpt (jsLookup row relevantColumn)
        let sorted := (jsSort (leDescBy key)
          (rows.filter (fun row =>
            (jsLookup row relevantColumn).isSome && (key row).isSome))).take topN
        let identifierColumn := idColumnOrFirst sorted headers
        some { sheetName, column := relevantColumn, rows := sorted,
               identifierColumn,
               chart := { type := "bar",
                          title := "Top " ++ toString topN ++ " by " ++ relevantColumn,
                          data := sorted, xKey := identifierColumn,
                          yKey := relevantColumn } }

/-- `processTopNQuery(question, data, topN)`; an empty list models the
empty result string when no sheet was applicable. -/
def processTopNQuery (question : String) (data : ExcelData) (topN : Nat) :
    List RankedSheet :=
  data.sheets.filterMap (fun sh => topNSheetResult question sh.1 sh.2 topN)

/-- Per-sheet body of `processBottomNQuery`: ascending sort, same shape. -/
def bottomNSheetResult (question : String) (sheetName : String)
    (rows : List Row) (bottomN : Nat) : Option RankedSheet :=
  match rows with
  | [] => none
  | firstRow :: _ =>
    let headers := rowKeys firstRow
    let numericColumns := headers.filter (fun h =>
      rows.any (fun row => (parseFloatOpt (jsLookup row h)).isSome))
    if numericColumns.isEmpty then none
    else
      match findRelevantColumn question numericColumns rows with
      | none => none
      | some relevantColumn =>
        let key := fun row => parseFloatOpt (jsLookup row relevantColumn)
        let sorted := (jsSort (leAscBy key)
          (rows.filter (fun row =>
            (jsLookup row relevantColumn).isSome && (key row).isSome))).take bottomN
        let identifierColumn := idColumnOrFirst sorted headers
        some { sheetName, column := relevantColumn, rows := sorted,
               identifierColumn,
               chart := { type := "bar",
                          title := "Bottom " ++ toString bottomN ++ " by " ++ relevantColumn,
                          data := sorted, xKey := identifierColumn,
                          yKey := relevantColumn } }

/-- `processBottomNQuery(question, data, bottomN)`. -/
def processBottomNQuery (question : String) (data : ExcelData) (bottomN : Nat) :
    List RankedSheet :=
  data.sheets.filterMap (fun sh => bottomNSheetResult question sh.1 sh.2 bottomN)

/-- Per-sheet result of the numeric-condition filter handler. -/
structure FilterSheet where
  sheetName : String
  rows : List Row
  identifierColumn : String
  chart : ChartPayload
deriving Repr, DecidableEq

/-- Per-sheet body of the numeric filter: keep the rows whose parsed cell
satisfies the comparison (rows that fail to parse are dropped). -/
def filterSheetResult (cond : NumericCondition) (headers : List String)
    (sheetName : String) (rows : List Row) : Option FilterSheet :=
  if rows.isEmpty then none
  else
    let filteredRows := rows.filter (fun row =>
      match parseFloatOpt (jsLookup row cond.column) with
      | none => false
      | some rv => applyCmp cond.operator rv cond.value)
    if filteredRows.isEmpty then none
    else
      let identifierColumn := idColumnOrFirst filteredRows headers
      some { sheetName, rows := filteredRows, identifierColumn,
             chart := { type := "bar",
                        title := "Data where " ++ cond.column ++ " " ++
                          cmpOpSymbol cond.operator ++ " " ++
                          ratToDisplay cond.value,
                        data := filteredRows, xKey := identifierColumn,
                        yKey := cond.column } }

/-- `processFilterQuery(question, data, headers)` of the re-architected
service: extract the condition, filter every sheet, null when nothing
matched. -/
def processFilterQuery (question : String) (data : ExcelData)
    (headers : List String) : Option (NumericCondition × List FilterSheet) :=
  match extractNumericFilterCondition question headers with
  | none => none
  | some cond =>
    let results := data.sheets.filterMap (fun sh =>
      filterSheetResult cond headers sh.1 sh.2)
    if results.isEmpty then none else some (cond, results)

/-- Which handler the router ran. -/
inductive RouteTag where
  | maxMin | topN | bottomN | numFilter
deriving Repr, DecidableEq

/-- The value the re-architected router returns: the handler that ran with
its structural payload (an empty payload list models the empty string a
ranking handler returns when no sheet was applicable). -/
inductive PreOut where
  | maxMin (results : List MaxMinSheet)
  | topN (n : Nat) (results : List RankedSheet)
  | bottomN (n : Nat) (results : List RankedSheet)
  | numFilter (cond : NumericCondition) (results : List FilterSheet)
deriving Repr, DecidableEq

/-- The handler tag of a router result. -/
def PreOut.tag : PreOut → RouteTag
  | .maxMin _ => .maxMin
  | .topN _ _ => .topN
  | .bottomN _ _ => .bottomN
  | .numFilter _ _ => .numFilter

/-- `[...new Set(xs)]`: deduplication preserving first occurrences. -/
def dedupFirstAux (seen : List String) : List String → List String
  | [] => []
  | x :: t =>
    if seen.contains x then dedupFirstAux seen t
    else x :: dedupFirstAux (x :: seen) t

/-- The union of all sheet headers, first occurrences first. -/
def allHeadersOf (data : ExcelData) : List String :=
  dedupFirstAux [] (data.sheets.flatMap (fun sh => sheetHeaders sh.2))

/-- The re-architected `preprocessQuery`: the intent router, translated
with its early returns. -/
def preprocessQuery (question : String) (data : ExcelData) : Option PreOut :=
  let lowerQuestion := jsToLower question
  let isSimpleChartRequest := matchChartRequest lowerQuestion
  let isComplexQuery := matchComplexQuery lowerQuestion
  if isSimpleChartRequest && !isComplexQuery then none
  else
    match processMaxMinQuery question data with
    | some r => some (.maxMin r)
    | none =>
      match matchTopN lowerQuestion with
      | some n => some (.topN n (processTopNQuery question data n))
      | none =>
        match matchBottomN lowerQuestion with
        | some n => some (.bottomN n (processBottomNQuery question data n))
        | none =>
          let allHeaders := allHeadersOf data
          match extractNumericFilterCondition question allHeaders with
          | some _ =>
            (processFilterQuery question data allHeaders).map
              (fun cr => .numFilter cr.1 cr.2)
          | none => none

/-! The older variant of the service, `src/utils/openai.ts`, differs in its
column resolver, its numeric-column detection and its ranking filters; the
aggregation handler and the top-N handler of that variant are embedded
below with an `A` suffix. -/

/-- The keyword table of the older `findRelevantColumn`, in insertion order. -/
def keywordTableA : List (String × List String) :=
  [("sales", ["sales", "revenue", "amount", "total", "value", "sold"]),
   ("price", ["price", "cost", "amount", "value", "rate"]),
   ("quantity", ["quantity", "qty", "count", "number", "units"]),
   ("revenue", ["revenue", "sales", "income", "earnings", "turnover"]),
   ("profit", ["profit", "margin", "earnings", "gain"]),
   ("score", ["score", "rating", "points", "grade"]),
   ("age", ["age", "years", "old"]),
   ("weight", ["weight", "mass", "kg", "pounds"]),
   ("height", ["height", "length", "tall", "cm"]),
   ("date", ["date", "time", "when", "day", "month", "year"]),
   ("name", ["name", "title", "label"]),
   ("category", ["category", "type", "class", "group"]),
   ("region", ["region", "area", "location", "place"]),
   ("product", ["product", "item", "goods"]),
   ("customer", ["customer", "client", "user"]),
   ("order", ["order", "purchase", "transaction"])]

/-- The older `findRelevantColumn(question, columns)`: keyword table scan,
then `columns[0] || null` (an empty first name is falsy). -/
def findRelevantColumnA (question : String) (columns : List String) :
    Option String :=
  let lowerQuestion := jsToLower question
  match keywordTableA.findSome? (fun kv =>
    if strContains lowerQuestion kv.1 then
      kv.2.findSome? (fun variation =>
        columns.find? (fun col => strContains (jsToLower col) variation))
    else none) with
  | some col => some col
  | none =>
    match columns with
    | [] => none
    | c :: _ => if c.isEmpty then none else some c

/-- The older numeric-cell detector
`!isNaN(parseFloat(row[h])) && isFinite(row[h])` — note the second conjunct
`Number`-coerces the raw cell, not the parsed value. -/
def numericCellStrict (cell : Option Value) : Bool :=
  (parseFloatOpt cell).isSome && isFiniteCoerce cell

/-- The older per-handler numeric column detection. -/
def numericColumnsStrict (rows : List Row) : List String :=
  (sheetHeaders rows).filter (fun h =>
    rows.any (fun row => numericCellStrict (jsLookup row h)))

/-- The ranking filter of the older top-N/bottom-N/sort handlers:
`row[c] != null && row[c] !== ''` — presence and non-emptiness only, no
parseability requirement. -/
def presentNonEmpty (cell : Option Value) : Bool :=
  match cell with
  | none => false
  | some (.str s) => !s.isEmpty
  | some (.num _) => true

/-- Per-sheet result of the older top-N handler. -/
structure RankedSheetA where
  sheetName : String
  column : String
  rows : List Row
deriving Repr, DecidableEq

/-- Per-sheet body of the older `processTopNQuery`. -/
def topNSheetResultA (question : String) (sheetName : String)
    (rows : List Row) (topN : Nat) : Option RankedSheetA :=
  match rows with
  | [] => none
  | _ :: _ =>
    let numericColumns := numericColumnsStrict rows
    if numericColumns.isEmpty then none
    else
      match findRelevantColumnA question numericColumns with
      | none => none
      | some relevantColumn =>
        let key := fun row => parseFloatOpt (jsLookup row relevantColumn)
        let sorted := (jsSort (leDescBy key)
          (rows.filter (fun row =>
            presentNonEmpty (jsLookup row relevantColumn)))).take topN
        some { sheetName, column := relevantColumn, rows := sorted }

/-- The older `processTopNQuery(question, data, topN)`. -/
def processTopNQueryA (question : String) (data : ExcelData) (topN : Nat) :
    List RankedSheetA :=
  data.sheets.filterMap (fun sh => topNSheetResultA question sh.1 sh.2 topN)

/-- Per-column statistics the aggregation handler reports. -/
structure AggStats where
  sum : Rat
  avg : Rat
  max : Rat
  min : Rat
  count : Nat
deriving Repr, DecidableEq

/-- The values list `rows.map(r => parseFloat(r[col])).filter(v => !isNaN(v)
&& isFinite(v))` of the aggregation handler; every modelled parsed rational
is finite, so the filter keeps exactly the cells whose permissive parse
succeeds. -/
def aggValues (rows : List Row) (column : String) : List Rat :=
  (rows.map (fun row => parseFloatOpt (jsLookup row column))).filterMap id

/-- `Math.max(...values)` for the guarded non-empty case. -/
def listMaxD : List Rat → Rat
  | [] => 0
  | v :: vs => vs.foldl jsMax v

/-- `Math.min(...values)` for the guarded non-empty case. -/
def listMinD : List Rat → Rat
  | [] => 0
  | v :: vs => vs.foldl jsMin v

/-- The statistics block computed per column. -/
def aggStatsOf (values : List Rat) : AggStats :=
  let s := values.foldl ratAdd 0
  { sum := s, avg := ratDiv s (values.length : Rat), max := listMaxD values,
    min := listMinD values, count := values.length }

/-- Per-sheet body of the older `processAggregationQuery`: one statistics
block for every detected numeric column with a non-empty values list. -/
def processAggSheetA (rows : List Row) : List (String × AggStats) :=
  (numericColumnsStrict rows).filterMap (fun column =>
    let values := aggValues rows column
    if values.isEmpty then none else some (column, aggStatsOf values))

/-- The older `processAggregationQuery(question, data)` (the question is
unused by its body): per-sheet statistics for sheets with rows and at
least one numeric column. -/
def processAggregationQueryA (data : ExcelData) :
    List (String × List (String × AggStats)) :=
  data.sheets.filterMap (fun sh =>
    if sh.2.isEmpty then none
    else if (numericColumnsStrict sh.2).isEmpty then none
    else some (sh.1, processAggSheetA sh.2))

/-- The parseable values of a column in row order: the cells whose
permissive float parse succeeds (and, in the model, is finite).  The
specification side of the aggregation and exclusion claims. -/
def parseableValues (rows : List Row) (column : String) : List Rat :=
  rows.filterMap (fun row => parseFloatOpt (jsLookup row column))

/-- A cell that is an actual number (the reading of "numeric value" in the
aggregation claim). -/
def isNumValue : Option Value → Bool
  | some (.num _) => true
  | _ => false

/-! The sentinel response protocol: a JSON model and `parseResponse`. -/

/-- A JSON value (`JSON.parse` output), numbers as rationals. -/
inductive Json where
  | null
  | bool (b : Bool)
  | num (q : Rat)
  | str (s : String)
  | arr (elems : List Json)
  | obj (fields : List (String × Json))
deriving Repr

/-- Unescape map of the string reader: the escapes this application meets. -/
def unescChar : Char → Option Char
  | '"' => some '"'
  | '\\' => some '\\'
  | 'n' => some '\n'
  | 't' => some '\t'
  | '/' => some '/'
  | _ => none

/-- String-body reader: consume up to the closing quote, unescaping. -/
def parseStrBody : List Char → Option (List Char × List Char)
  | [] => none
  | c :: r =>
    if c = '"' then some ([], r)
    else if c = '\\' then
      match r with
      | [] => none
      | c2 :: r2 =>
        match unescChar c2 with
        | some c3 => (parseStrBody r2).map (fun p => (c3 :: p.1, p.2))
        | none => none
    else (parseStrBody r).map (fun p => (c :: p.1, p.2))

/-- A JSON number without its sign: digits, optionally a point and at
least one more digit. -/
def parseJsonNumNoSign (cs : List Char) : Option (Rat × List Char) :=
  let ds := cs.takeWhile Char.isDigit
  if ds.isEmpty then none
  else
    match cs.drop ds.length with
    | c :: t =>
      if c = '.' then
        let fs := t.takeWhile Char.isDigit
        if fs.isEmpty then none
        else some (ratOfDigits ds fs, t.drop fs.length)
      else some (ratOfDigits ds [], c :: t)
    | [] => some (ratOfDigits ds [], [])

/-- A JSON number token. -/
def parseJsonNum (cs : List Char) : Option (Rat × List Char) :=
  match cs with
  | c :: t =>
    if c = '-' then (parseJsonNumNoSign t).map (fun p => (-p.1, p.2))
    else parseJsonNumNoSign (c :: t)
  | [] => none

/-- Intermediate results of the JSON parser's three modes. -/
inductive PRes where
  | jval (j : Json)
  | jelems (es : List Json)
  | jfields (fs : List (String × Json))
deriving Repr

/-- The parser's mode: a value, array elements, or object members. -/
inductive PMode where
  | val | elems | fields
deriving Repr, DecidableEq

/-- Match one expected character. -/
def stripChar (c : Char) (cs : List Char) : Option (List Char) :=
  match cs with
  | [] => none
  | c2 :: r => if c2 = c then some r else none

/-- Fuel-bounded recursive-descent JSON parser.  The fuel bounds the
recursion depth: one unit per container level and per element or member
step, so any input of length `n` needs at most `n + 2` fuel. -/
def parseP : Nat → PMode → List Char → Option (PRes × List Char)
  | 0, _, _ => none
  | fuel + 1, .val, cs =>
    match cs.dropWhile isWsChar with
    | [] => none
    | c :: rest =>
      if c = '{' then
        match stripChar '}' (rest.dropWhile isWsChar) with
        | some r2 => some (.jval (.obj []), r2)
        | none =>
          match parseP fuel .fields rest with
          | some (.jfields fs, r2) => some (.jval (.obj fs), r2)
          | _ => none
      else if c = '[' then
        match stripChar ']' (rest.dropWhile isWsChar) with
        | some r2 => some (.jval (.arr []), r2)
        | none =>
          match parseP fuel .elems rest with
          | some (.jelems es, r2) => some (.jval (.arr es), r2)
          | _ => none
      else if c = '"' then
        (parseStrBody rest).map (fun p => (.jval (.str (String.mk p.1)), p.2))
      else if c = 'n' then
        (stripLit "ull".data rest).map (fun r => (.jval .null, r))
      else if c = 't' then
        (stripLit "rue".data rest).map (fun r => (.jval (.bool true), r))
      else if c = 'f' then
        (stripLit "alse".data rest).map (fun r => (.jval (.bool false), r))
      else (parseJsonNum (c :: rest)).map (fun p => (.jval (.num p.1), p.2))
  | fuel + 1, .elems, cs =>
    match parseP fuel .val cs with
    | some (.jval v, r) =>
      (match r.dropWhile isWsChar with
       | [] => none
       | c :: r2 =>
         if c = ',' then
           match parseP fuel .elems r2 with
           | some (.jelems vs, r3) => some (.jelems (v :: vs), r3)
           | _ => none
         else if c = ']' then some (.jelems [v], r2)
         else none)
    | _ => none
  | fuel + 1, .fields, cs =>
    match cs.dropWhile isWsChar with
    | [] => none
    | c :: rest =>
      if c = '"' then
        match parseStrBody rest with
        | some (k, r1) =>
          (match r1.dropWhile isWsChar with
           | [] => none
           | c2 :: r2 =>
             if c2 = ':' then
               match parseP fuel .val r2 with
               | some (.jval v, r3) =>
                 (match r3.dropWhile isWsChar with
                  | [] => none
                  | c3 :: r4 =>
                    if c3 = ',' then
                      match parseP fuel .fields r4 with
                      | some (.jfields fs, r5) =>
                        some (.jfields ((String.mk k, v) :: fs), r5)
                      | _ => none
                    else if c3 = '}' then
                      some (.jfields [(String.mk k, v)], r4)
                    else none)
               | _ => none
             else none)
        | none => none
      else none

/-- Model of `JSON.parse`: parse one value, then allow only trailing
whitespace; `none` models a thrown `SyntaxError`. -/
def jsonParse (s : String) : Option Json :=
  match parseP (s.length + 2) .val s.data with
  | some (.jval j, rest) =>
    if (rest.dropWhile isWsChar).isEmpty then some j else none
  | _ => none

/-- First index of a substring (JavaScript `indexOf`; `none` is `-1`). -/
def indexOfSub (l pat : List Char) : Option Nat :=
  if pat.isPrefixOf l then some 0
  else
    match l with
    | [] => none
    | _ :: t => (indexOfSub t pat).map (fun n => n + 1)

/-- The sentinel literal. -/
def chartSpecIdent : String := "CHART_SPEC:"

/-- The chart object `parseResponse` assembles: each field holds the raw
JSON value found under the corresponding key, absent fields are `none`
(JavaScript `undefined`). -/
structure ParsedChart where
  type : Option Json
  data : Option Json
  xKey : Option Json
  yKey : Option Json
  dataKey : Option Json
  nameKey : Option Json
  title : Option Json
deriving Repr

/-- The `{text, chart?}` pair `parseResponse` returns. -/
structure ParseOut where
  text : String
  chart : Option ParsedChart
deriving Repr

/-- JavaScript property access on a parsed JSON value (`undefined` on
non-objects). -/
def Json.getField : Json → String → Option Json
  | .obj fs, k => (fs.find? (fun p => p.1 == k)).map (fun p => p.2)
  | _, _ => none

/-- Is a parsed JSON value `null`?  Property access on it throws. -/
def Json.isNull : Json → Bool
  | .null => true
  | _ => false

/-- `parseResponse(response)` of the re-architected service: split on the
first occurrence of the sentinel, trim both sides; a suffix that fails
`JSON.parse` degrades to the entire raw response with no chart (as does a
suffix that parses to JSON `null`, whose property access throws into the
same catch), and a missing sentinel returns the raw response unchanged.
The function is total: no path raises. -/
def parseResponse (response : String) : ParseOut :=
  match indexOfSub response.data chartSpecIdent.data with
  | none => { text := response, chart := none }
  | some i =>
    let textResponse := String.mk (jsTrimList (response.data.take i))
    let chartSpecString :=
      String.mk (jsTrimList (response.data.drop (i + chartSpecIdent.length)))
    match jsonParse chartSpecString with
    | none => { text := response, chart := none }
    | some chartSpec =>
      if chartSpec.isNull then { text := response, chart := none }
      else
      { text := textResponse,
        chart := some { type := chartSpec.getField "type",
                        data := chartSpec.getField "data",
                        xKey := chartSpec.getField "xKey",
                        yKey := chartSpec.getField "yKey",
                        dataKey := chartSpec.getField "dataKey",
                        nameKey := chartSpec.getField "nameKey",
                        title := chartSpec.getField "title" } }

/-! The composition side of the round trip: a chart object of the shape
the application produces (canonical fields, flat data records) and its
`JSON.stringify` rendering. -/

/-- Digit characters of a natural number, most significant first
(fuel-driven so that concrete evaluation reduces). -/
def natToCharsAux : Nat → Nat → List Char → List Char
  | 0, _, acc => acc
  | fuel + 1, n, acc =>
    let d := Char.ofNat (48 + n % 10)
    if n < 10 then d :: acc
    else natToCharsAux fuel (n / 10) (d :: acc)

/-- Decimal digits of a natural number. -/
def natToChars (n : Nat) : List Char := natToCharsAux (n + 1) n []

/-- Decimal rendering of an integer. -/
def intToChars (n : Int) : List Char :=
  if n < 0 then '-' :: natToChars n.natAbs else natToChars n.natAbs

/-- The digit characters of a fractional-digit list (each digit taken
mod 10, so every list is a valid digit string). -/
def digitChars (ks : List Nat) : List Char :=
  ks.map (fun k => Char.ofNat (48 + k % 10))

/-- A scalar in a flat chart-data record: null, boolean, integer,
finite-decimal number (sign, integer digits, at least one fractional
digit — the shape `JSON.stringify` gives the parsed cell floats the
application puts in its payloads), or string. -/
inductive Prim where
  | pnull
  | pbool (b : Bool)
  | pint (n : Int)
  | pdec (neg : Bool) (n : Nat) (f0 : Nat) (fs : List Nat)
  | pstr (s : String)
deriving Repr, DecidableEq

/-- The rational value of a rendered finite decimal. -/
def decValue (neg : Bool) (n f0 : Nat) (fs : List Nat) : Rat :=
  if neg then -ratOfDigits (natToChars n) (digitChars (f0 :: fs))
  else ratOfDigits (natToChars n) (digitChars (f0 :: fs))

/-- The JSON value of a scalar. -/
def Prim.toJson : Prim → Json
  | .pnull => .null
  | .pbool b => .bool b
  | .pint n => .num (n : Rat)
  | .pdec neg n f0 fs => .num (decValue neg n f0 fs)
  | .pstr s => .str s

/-- A chart object as composed for the round trip: the canonical fields,
the four key fields optional (`JSON.stringify` omits undefined
properties), `data` a sequence of flat records of scalars. -/
structure ChartSpec where
  ctype : String
  title : String
  data : List (List (String × Prim))
  xKey : Option String
  yKey : Option String
  nameKey : Option String
  dataKey : Option String
deriving Repr, DecidableEq

/-- `JSON.stringify` escaping of `"` and `\` (control characters pass
through raw; the parser model accepts them raw, so the two sides agree). -/
def escapeChars : List Char → List Char
  | [] => []
  | c :: cs =>
    if c = '"' then '\\' :: '"' :: escapeChars cs
    else if c = '\\' then '\\' :: '\\' :: escapeChars cs
    else c :: escapeChars cs

/-- A rendered JSON string literal. -/
def renderString (s : String) : List Char := '"' :: (escapeChars s.data ++ ['"'])

/-- A rendered scalar. -/
def renderPrim : Prim → List Char
  | .pnull => "null".data
  | .pbool true => "true".data
  | .pbool false => "false".data
  | .pint n => intToChars n
  | .pdec neg n f0 fs =>
    if neg then '-' :: (natToChars n ++ '.' :: digitChars (f0 :: fs))
    else natToChars n ++ '.' :: digitChars (f0 :: fs)
  | .pstr s => renderString s

/-- Comma-separated `"key":value` members (no whitespace, as
`JSON.stringify` emits). -/
def renderFieldsP : List (String × Prim) → List Char
  | [] => []
  | [(k, v)] => renderString k ++ ':' :: renderPrim v
  | (k, v) :: rest => renderString k ++ ':' :: renderPrim v ++ ',' :: renderFieldsP rest

/-- A rendered flat record. -/
def renderRecord (r : List (String × Prim)) : List Char :=
  '{' :: (renderFieldsP r ++ ['}'])

/-- Comma-separated rendered records. -/
def renderRecordsList : List (List (String × Prim)) → List Char
  | [] => []
  | [r] => renderRecord r
  | r :: rest => renderRecord r ++ ',' :: renderRecordsList rest

/-- The rendered data array. -/
def renderRecords (rs : List (List (String × Prim))) : List Char :=
  '[' :: (renderRecordsList rs ++ [']'])

/-- The optional canonical key fields that are present, in the fixed order
xKey, yKey, nameKey, dataKey, as string-valued members. -/
def ChartSpec.optMembers (X : ChartSpec) : List (String × Prim) :=
  (X.xKey.map (fun s => ("xKey", Prim.pstr s))).toList ++
  (X.yKey.map (fun s => ("yKey", Prim.pstr s))).toList ++
  (X.nameKey.map (fun s => ("nameKey", Prim.pstr s))).toList ++
  (X.dataKey.map (fun s => ("dataKey", Prim.pstr s))).toList

/-- The members of the rendered chart object between its braces. -/
def chartMiddle (X : ChartSpec) : List Char :=
  renderString "type" ++ ':' :: renderString X.ctype ++
  ',' :: renderString "title" ++ ':' :: renderString X.title ++
  ',' :: renderString "data" ++ ':' :: renderRecords X.data ++
  (match X.optMembers with
   | [] => []
   | ms => ',' :: renderFieldsP ms)

/-- `JSON.stringify` of the chart object: fixed field order
type, title, data, then the present key fields. -/
def renderChart (X : ChartSpec) : List Char :=
  ('{' :: chartMiddle X) ++ ['}']

/-- The JSON value of a flat record. -/
def recordToJson (r : List (String × Prim)) : Json :=
  .obj (r.map (fun p => (p.1, p.2.toJson)))

/-- The JSON value of the data array. -/
def recordsToJson (rs : List (List (String × Prim))) : Json :=
  .arr (rs.map recordToJson)

/-- The JSON value `JSON.parse` recovers from the rendered chart. -/
def ChartSpec.toJson (X : ChartSpec) : Json :=
  .obj ([("type", Json.str X.ctype), ("title", Json.str X.title),
         ("data", recordsToJson X.data)] ++
        X.optMembers.map (fun p => (p.1, p.2.toJson)))

/-- The composed model response `text + "\nCHART_SPEC: " + JSON(X)`. -/
def composeResponse (text : String) (X : ChartSpec) : String :=
  text ++ "\nCHART_SPEC: " ++ String.mk (renderChart X)

/-- The canonical-field chart `parseResponse` should recover from `X`. -/
def expectedChart (X : ChartSpec) : ParsedChart :=
  { type := some (.str X.ctype), data := some (recordsToJson X.data),
    xKey := X.xKey.map Json.str, yKey := X.yKey.map Json.str,
    dataKey := X.dataKey.map Json.str, nameKey := X.nameKey.map Json.str,
    title := some (.str X.title) }

/-! The older `openai.ts` variant of `parseResponse`: regex-based
extraction with a lazy brace group. -/

/-- The chart object the older variant assembles (`type`, `data` and the
`config` fields, flattened; absent fields are `undefined`). -/
structure ParsedChartA where
  type : Option Json
  data : Option Json
  xKey : Option Json
  yKey : Option Json
  dataKey : Option Json
  nameKey : Option Json
  title : Option Json
  xLabel : Option Json
  yLabel : Option Json
deriving Repr

/-- The `{text, chart?}` pair of the older variant. -/
structure ParseOutA where
  text : String
  chart : Option ParsedChartA
deriving Repr

/-- One attempt of `/CHART_SPEC:\s*({[\s\S]*?})/` at a position: the
literal sentinel, any whitespace, then the lazy group `{...}` captures
from the opening brace to the FIRST closing brace. -/
def tryCapAt (cs : List Char) : Option (List Char) :=
  match stripLit chartSpecIdent.data cs with
  | none => none
  | some r1 =>
    match r1.dropWhile isWsChar with
    | [] => none
    | c :: body =>
      if c = '{' then
        let pre := body.takeWhile (fun d => d != '}')
        if (body.drop pre.length).isEmpty then none
        else some ('{' :: (pre ++ ['}']))
      else none

/-- Leftmost match of the extraction regex over the response. -/
def matchCapA : List Char → Option (List Char)
  | [] => none
  | c :: t =>
    match tryCapAt (c :: t) with
    | some cap => some cap
    | none => matchCapA t

/-- `parseResponse(response)` of the older `openai.ts` variant: regex
extraction of a lazily-bracketed group after the sentinel, `JSON.parse`
of the captured group, text via removing `/CHART_SPEC:[\s\S]*\/` (from
the first literal sentinel occurrence) and trimming; any parse failure
falls through to the raw response with no chart. -/
def parseResponseA (response : String) : ParseOutA :=
  match matchCapA response.data with
  | none => { text := response, chart := none }
  | some cap =>
    match jsonParse (String.mk cap) with
    | none => { text := response, chart := none }
    | some chartSpec =>
      let i := (indexOfSub response.data chartSpecIdent.data).getD
        response.data.length
      { text := String.mk (jsTrimList (response.data.take i)),
        chart := some { type := chartSpec.getField "type",
                        data := chartSpec.getField "data",
                        xKey := chartSpec.getField "xKey",
                        yKey := chartSpec.getField "yKey",
                        dataKey := chartSpec.getField "dataKey",
                        nameKey := chartSpec.getField "nameKey",
                        title := chartSpec.getField "title",
                        xLabel := chartSpec.getField "xLabel",
                        yLabel := chartSpec.getField "yLabel" } }

/-- Parser-depth bound for the members of one record. -/
def needFields (r : List (String × Prim)) : Nat := r.length + 1

/-- Parser-depth bound for one record as a value. -/
def needRecordV (r : List (String × Prim)) : Nat := r.length + 2

/-- Parser-depth bound for a chain of record elements. -/
def needElemsL : List (List (String × Prim)) → Nat
  | [] => 1
  | r :: tail => max (needRecordV r + 1) (needElemsL tail + 1)

/-- Parser-depth bound for the whole rendered chart object. -/
def needChart (X : ChartSpec) : Nat := needElemsL X.data + 12

/-! The router described declaratively, for the amended routing claim. -/

/-- The four router stages in their priority order; a stage contributes
`some` when its trigger fires and (for the extremum and filter stages) its
handler produced a result. -/
def routerStages (question : String) (data : ExcelData) : List (Option PreOut) :=
  let lowerQuestion := jsToLower question
  [(processMaxMinQuery question data).map PreOut.maxMin,
   (matchTopN lowerQuestion).map
     (fun n => PreOut.topN n (processTopNQuery question data n)),
   (matchBottomN lowerQuestion).map
     (fun n => PreOut.bottomN n (processBottomNQuery question data n)),
   (match extractNumericFilterCondition question (allHeadersOf data) with
    | some _ =>
      (processFilterQuery question data (allHeadersOf data)).map
        (fun cr => PreOut.numFilter cr.1 cr.2)
    | none => none)]

/-- First producing stage. -/
def firstSome : List (Option α) → Option α
  | [] => none
  | o :: os =>
    match o with
    | some r => some r
    | none => firstSome os

/-- The declarative router: the bare-chart-request bypass, then the first
stage in priority order that produces a result. -/
def routerSpec (question : String) (data : ExcelData) : Option PreOut :=
  let lowerQuestion := jsToLower question
  if matchChartRequest lowerQuestion && !matchComplexQuery lowerQuestion then none
  else firstSome (routerStages question data)

/-! Concrete data for the scenario claims and counterexamples. -/

/-- Scenario row `{Name:"A",Attack:10}`. -/
def rowA : Row := [("Name", .str "A"), ("Attack", .num 10)]

/-- Scenario row `{Name:"B",Attack:50}`. -/
def rowB : Row := [("Name", .str "B"), ("Attack", .num 50)]

/-- Scenario row `{Name:"C",Attack:30}`. -/
def rowC : Row := [("Name", .str "C"), ("Attack", .num 30)]

/-- Scenario row `{Name:"D",Attack:5}`. -/
def rowD : Row := [("Name", .str "D"), ("Attack", .num 5)]

/-- The four scenario rows of the specification. -/
def pokeRows : List Row := [rowA, rowB, rowC, rowD]

/-- The scenario dataset: one sheet of the four rows. -/
def pokeData : ExcelData := ⟨"poke.xlsx", [("Sheet1", pokeRows)]⟩

/-- A row whose Attack cell is a non-empty, non-parseable string. -/
def rowXabc : Row := [("Name", .str "X"), ("Attack", .str "abc")]

/-- A row whose Attack cell is the number 10. -/
def rowYten : Row := [("Name", .str "Y"), ("Attack", .num 10)]

/-- A dataset mixing a non-parseable and a numeric Attack cell. -/
def mixedData : ExcelData := ⟨"mixed.xlsx", [("S", [rowXabc, rowYten])]⟩

/-- A row whose only identifier-like column holds a number. -/
def idRow : Row := [("ID", .num 7), ("Score", .num 10)]

/-- An answer text that itself contains the sentinel. -/
def sentinelText : String := "CHART_SPEC: note"

/-- A minimal valid chart object. -/
def smallChart : ChartSpec :=
  { ctype := "bar", title := "T", data := [], xKey := some "x",
    yKey := some "y", nameKey := none, dataKey := none }

/-- A chart object with one data record holding a fractional value. -/
def dataChart : ChartSpec :=
  { ctype := "bar", title := "T",
    data := [[("Name", .pstr "A"), ("Attack", .pdec false 10 5 [])]],
    xKey := some "Name", yKey := some "Attack", nameKey := none,
    dataKey := none }

/-- Is a cell value a string? -/
def Value.isStr : Value → Bool
  | .str _ => true
  | .num _ => false

/-! ## Helper lemmas -/

/-- The smart-constructor addition is rational addition. -/
theorem ratAdd_eq_add (a b : Rat) : ratAdd a b = a + b := (Rat.add_def' a b).symm

/-- Rebuilding a string from its characters is the identity. -/
theorem strMk_data (s : String) : String.mk s.data = s := by
  cases s
  rfl

/-- The head of a flat-mapped list is the first mapped head. -/
theorem head?_flatMap (l : List α) (f : α → List β) :
    (l.flatMap f).head? = l.findSome? (fun a => (f a).head?) := by
  induction l with
  | nil => rfl
  | cons a t ih =>
    rw [List.flatMap_cons, List.findSome?_cons]
    cases h : (f a).head? with
    | none =>
      have : f a = [] := by cases hfa : f a <;> simp [hfa] at h ⊢
      simp [this, ih]
    | some b =>
      cases hfa : f a with
      | nil => simp [hfa] at h
      | cons x xs => simp [hfa] at h; simp [hfa, h]

/-- Membership through stable insertion. -/
theorem mem_insertStable {le : α → α → Bool} {x y : α} {l : List α} :
    y ∈ insertStable le x l ↔ y = x ∨ y ∈ l := by
  induction l with
  | nil => simp [insertStable]
  | cons a t ih =>
    simp only [insertStable]
    split
    · simp only [List.mem_cons, ih]
      tauto
    · simp [List.mem_cons]

/-- The modelled stable sort neither adds nor removes elements. -/
theorem mem_jsSort {le : α → α → Bool} {l : List α} {y : α} :
    y ∈ jsSort le l ↔ y ∈ l := by
  suffices h : ∀ acc : List α,
      (y ∈ l.foldl (fun acc x => insertStable le x acc) acc ↔ y ∈ acc ∨ y ∈ l) by
    simpa [jsSort] using h []
  induction l with
  | nil => simp
  | cons a t ih =>
    intro acc
    simp only [List.foldl_cons, ih, mem_insertStable, List.mem_cons]
    tauto

/-- A substring that does not occur has no index. -/
theorem indexOfSub_eq_none {pat l : List Char} (h : listContains pat l = false) :
    indexOfSub l pat = none := by
  induction l with
  | nil =>
    simp only [listContains, List.isEmpty_iff] at h
    have : pat.isPrefixOf [] = false := by
      cases pat with
      | nil => simp at h
      | cons p ps => rfl
    simp [indexOfSub, this]
  | cons c t ih =>
    simp only [listContains, Bool.or_eq_false_iff] at h
    rw [indexOfSub, if_neg (by simp [h.1]), ih h.2]
    rfl

/-! ## The claims -/

/-- Claim C4 (confirmed): for the scenario dataset and the question
"top 3 by Attack", the top-N handler produces the ranked order
B(50), C(30), A(10) and a bar-chart payload with `xKey = "Name"`,
`yKey = "Attack"` and `data` of length 3 in the same order. -/
theorem topN_scenario :
    processTopNQuery "top 3 by Attack" pokeData 3 =
      [{ sheetName := "Sheet1", column := "Attack", rows := [rowB, rowC, rowA],
         identifierColumn := "Name",
         chart := { type := "bar", title := "Top 3 by Attack",
                    data := [rowB, rowC, rowA], xKey := "Name",
                    yKey := "Attack" } }] ∧
    (processTopNQuery "top 3 by Attack" pokeData 3).map
      (fun s => s.chart.data.length) = [3] :=
  ⟨by decide, by decide⟩

/-- Claim C10 (confirmed): a response without the sentinel is returned
verbatim (untrimmed) with no chart. -/
theorem no_sentinel_verbatim (response : String)
    (h : strContains response chartSpecIdent = false) :
    parseResponse response = ⟨response, none⟩ := by
  unfold parseResponse
  rw [indexOfSub_eq_none h]

/-- Witness for C10 at a concrete response. -/
theorem no_sentinel_verbatim_witness :
    parseResponse "A plain answer." = ⟨"A plain answer.", none⟩ :=
  no_sentinel_verbatim "A plain answer." (by decide)

/-- Claim C3 (confirmed): when the sentinel occurs and the suffix after it
fails JSON parsing, `parseResponse` returns the entire raw response with no
chart; the function is total, so no exception reaches the caller. -/
theorem malformed_chartspec_degrades (response : String) (i : Nat)
    (hidx : indexOfSub response.data chartSpecIdent.data = some i)
    (hbad : jsonParse (String.mk (jsTrimList
      (response.data.drop (i + chartSpecIdent.length)))) = none) :
    parseResponse response = ⟨response, none⟩ := by
  unfold parseResponse
  rw [hidx]
  dsimp only
  rw [hbad]

/-- Witness for C3 at a concrete malformed response. -/
theorem malformed_chartspec_degrades_witness :
    parseResponse "Here.\nCHART_SPEC: bad(" = ⟨"Here.\nCHART_SPEC: bad(", none⟩ :=
  malformed_chartspec_degrades "Here.\nCHART_SPEC: bad(" 6 (by decide) rfl

/-- Claim C1 counterexample: for "highest attack above 20" over the
scenario dataset the numeric-condition trigger fires, yet the router
executes the single-extremum handler — the numeric-condition filter is not
evaluated first as the claim states. -/
theorem router_priority_counterexample :
    (extractNumericFilterCondition "highest attack above 20"
      (allHeadersOf pokeData)).isSome = true ∧
    (preprocessQuery "highest attack above 20" pokeData).map PreOut.tag =
      some RouteTag.maxMin ∧
    RouteTag.maxMin ≠ RouteTag.numFilter :=
  ⟨by decide, by decide, by decide⟩

/-- Claim C6 counterexample: the re-architected column resolver returns
`none` for a non-empty candidate list (no name match, no synonym match, and
the first row's value does not parse), so it is not total as claimed. -/
theorem findRelevantColumn_none_counterexample :
    findRelevantColumn "foo" ["Attack"] [[("Attack", Value.str "abc")]] = none ∧
    ["Attack"] ≠ ([] : List String) :=
  ⟨by decide, by decide⟩

/-- Claim C7 counterexample: in the older top-N handler, the row whose
Attack cell is the unparseable string "abc" passes the null/empty filter
and appears in the emitted ranking. -/
theorem unparseable_row_in_ranking_counterexample :
    processTopNQueryA "top 2 attack" mixedData 2 =
      [{ sheetName := "S", column := "Attack", rows := [rowXabc, rowYten] }] ∧
    parseFloatOpt (jsLookup rowXabc "Attack") = none :=
  ⟨by decide, by decide⟩

/-- Claim C8 counterexample: with a numeric identifier-like column, row
identifier resolution returns the raw number, not a string. -/
theorem getRowIdentifier_nonstring_counterexample :
    getRowIdentifier idRow ["ID", "Score"] = Value.num 7 ∧
    Value.isStr (Value.num 7) = false :=
  ⟨by decide, by decide⟩

/-- The extractor equals the head of the candidate scan: first structural
match in header, then operator, then word, then word-order priority. -/
theorem extract_eq_candidates_head (question : String) (headers : List String) :
    extractNumericFilterCondition question headers =
      (conditionCandidates question headers).head? := by
  unfold extractNumericFilterCondition conditionCandidates
  dsimp only
  rw [head?_flatMap]
  refine congrFun (congrArg List.findSome? (funext fun header => ?_)) headers
  by_cases hlen : header.length < 1
  · simp only [if_pos hlen, List.head?_nil]
  · rw [if_neg hlen, if_neg hlen, head?_flatMap]
    refine congrFun (congrArg List.findSome? (funext fun ow => ?_)) operatorTable
    rw [head?_flatMap]
    refine congrFun (congrArg List.findSome? (funext fun w => ?_)) ow.2
    cases h1 : matchCondP1 (jsToLower header).data w.data (jsToLower question).data <;>
      cases h2 : matchCondP2 (jsToLower header).data w.data (jsToLower question).data <;>
        simp [h1, h2]

/-- Claim C5 (confirmed): for the scenario rows and "Attack above 20" the
extractor returns `(Attack, >, 20)` and the numeric filter keeps exactly
rows B and C; in general, the extractor returns the first structural match
found scanning headers in input order, then operators, then word orders. -/
theorem extract_condition_first_match :
    extractNumericFilterCondition "Attack above 20" ["Name", "Attack"] =
      some ⟨"Attack", CmpOp.gt, 20⟩ ∧
    (processFilterQuery "Attack above 20" pokeData ["Name", "Attack"]).map
      (fun cr => cr.2.map (fun s => s.rows)) = some [[rowB, rowC]] ∧
    ∀ (question : String) (headers : List String),
      extractNumericFilterCondition question headers =
        (conditionCandidates question headers).head? :=
  ⟨by decide, by decide, extract_eq_candidates_head⟩

/-- Claim C1 amended: the re-architected router returns no pre-processing
for a bare chart request without analytic keywords; otherwise the first
producing stage wins, in the priority order single extremum → top-N →
bottom-N → numeric-condition filter → no pre-processing.  (The general
filter, aggregation, comparison, trend and sort keyword stages of the
claimed order exist only in the older variant, whose order also differs.) -/
theorem router_first_match_stages (question : String) (data : ExcelData) :
    preprocessQuery question data = routerSpec question data := by
  unfold preprocessQuery routerSpec routerStages
  dsimp only
  by_cases hb : (matchChartRequest (jsToLower question) &&
      !matchComplexQuery (jsToLower question)) = true
  · rw [if_pos hb, if_pos hb]
  · rw [if_neg hb, if_neg hb]
    cases hm : processMaxMinQuery question data with
    | some r => simp [firstSome]
    | none =>
      cases ht : matchTopN (jsToLower question) with
      | some n => simp [firstSome]
      | none =>
        cases hbn : matchBottomN (jsToLower question) with
        | some n => simp [firstSome]
        | none =>
          cases he : extractNumericFilterCondition question (allHeadersOf data) with
          | some c =>
            cases hf : processFilterQuery question data (allHeadersOf data) with
            | some cr => simp [firstSome, hf]
            | none => simp [firstSome, hf]
          | none => simp [firstSome]

/-- Claim C6 amended: the re-architected column resolver tries, in order,
(1) a candidate whose lowercased name occurs in the (not lowercased)
question, (2) the fixed synonym table, (3) the first candidate whose value
in the first row parses as a number — and returns `none` when all three
fail (also for an empty row list); being a pure function, the same inputs
always yield the same output. -/
theorem findRelevantColumn_stages (question : String) (columns : List String)
    (rows : List Row) :
    findRelevantColumn question columns rows =
      ((relevantStep1 question columns).orElse (fun _ =>
        (relevantStep2 question columns).orElse (fun _ =>
          relevantStep3 columns rows))) := by
  unfold findRelevantColumn relevantStep1 relevantStep2 relevantStep3
  cases columns.find? (fun col => strContains question (jsToLower col)) with
  | some col => rfl
  | none =>
    simp only [Option.orElse_none, Option.none_orElse]
    cases relevantKeywords.findSome? (fun kv =>
      if strContains question kv.1 then
        columns.find? (fun c => strContains (jsToLower c) (jsToLower kv.2))
      else none) with
    | some col => rfl
    | none =>
      simp only [Option.none_orElse]
      cases rows with
      | nil => rfl
      | cons firstRow t =>
        show (match columns.filter (firstRowNumeric firstRow) with
              | [] => none
              | c :: _ => some c) = columns.find? (firstRowNumeric firstRow)
        rw [← List.filter_head? (firstRowNumeric firstRow) columns]
        cases columns.filter (firstRowNumeric firstRow) with
        | nil => rfl
        | cons c t2 => rfl

/-- Claim C8 amended: row identifier resolution is total and returns either
a cell value of the row (not necessarily a string — see the counterexample)
or the synthesized placeholder string; it never fails. -/
theorem getRowIdentifier_total (row : Row) (headers : List String) :
    (∃ p ∈ row, getRowIdentifier row headers = p.2) ∨
    getRowIdentifier row headers = Value.str (rowPlaceholder row headers) := by
  unfold getRowIdentifier
  cases hfs : identifierColumns.findSome? (fun idCol =>
    match headers.find? (fun h => strContains (jsToLower h) idCol) with
    | some h => if truthy (jsLookup row h) then jsLookup row h else none
    | none => none) with
  | some v =>
    left
    show ∃ p ∈ row, v = p.2
    obtain ⟨idCol, -, hid⟩ := List.exists_of_findSome?_eq_some hfs
    cases hh : headers.find? (fun h => strContains (jsToLower h) idCol) with
    | none => rw [hh] at hid; cases hid
    | some h =>
      rw [hh] at hid
      change (if truthy (jsLookup row h) = true then jsLookup row h else none) =
        some v at hid
      by_cases ht : truthy (jsLookup row h) = true
      · rw [if_pos ht] at hid
        unfold jsLookup at hid
        cases hl : row.find? (fun p => p.1 == h) with
        | none => rw [hl] at hid; cases hid
        | some p =>
          rw [hl] at hid
          refine ⟨p, List.mem_of_find?_eq_some hl, ?_⟩
          exact (Option.some.inj hid).symm
      · rw [if_neg ht] at hid
        cases hid
  | none =>
    cases hf : headers.find? (fun h =>
      match jsLookup row h with
      | some (.str s) => (parseFloatChars s.data).isNone
      | _ => false) with
    | none => right; rfl
    | some h =>
      by_cases hemp : h.isEmpty = true
      · right
        show (if h.isEmpty = true then Value.str (rowPlaceholder row headers)
              else (jsLookup row h).getD (Value.str (rowPlaceholder row headers))) =
          Value.str (rowPlaceholder row headers)
        rw [if_pos hemp]
      · cases hl : jsLookup row h with
        | none =>
          right
          show (if h.isEmpty = true then Value.str (rowPlaceholder row headers)
                else (jsLookup row h).getD (Value.str (rowPlaceholder row headers))) =
            Value.str (rowPlaceholder row headers)
          rw [if_neg hemp, hl]
          rfl
        | some v =>
          left
          show ∃ p ∈ row,
            (if h.isEmpty = true then Value.str (rowPlaceholder row headers)
             else (jsLookup row h).getD (Value.str (rowPlaceholder row headers))) = p.2
          rw [if_neg hemp, hl]
          unfold jsLookup at hl
          cases hl2 : row.find? (fun p => p.1 == h) with
          | none => rw [hl2] at hl; cases hl
          | some p =>
            rw [hl2] at hl
            change some p.2 = some v at hl
            refine ⟨p, List.mem_of_find?_eq_some hl2, ?_⟩
            cases hl
            rfl

/-- Every winner that the extremum fold reports parses to the reported
value, provided the starting accumulator does. -/
theorem scanExtreme_go (isMax : Bool) (metric : String) (rows : List Row) :
    ∀ (acc : Option (Row × Rat)),
      (∀ r0 v0, acc = some (r0, v0) →
        parseFloatOpt (jsLookup r0 metric) = some v0) →
      ∀ r v, rows.foldl (fun acc row =>
          match parseFloatOpt (jsLookup row metric) with
          | none => acc
          | some v =>
            match acc with
            | none => some (row, v)
            | some (_, tv) =>
              if (isMax && decide (tv < v)) || (!isMax && decide (v < tv)) then
                some (row, v)
              else acc) acc = some (r, v) →
        parseFloatOpt (jsLookup r metric) = some v := by
  induction rows with
  | nil =>
    intro acc hinv r v h2
    exact hinv r v h2
  | cons row t ih =>
    intro acc hinv r v h2
    rw [List.foldl_cons] at h2
    refine ih _ ?_ r v h2
    intro r0 v0 h0
    cases hp : parseFloatOpt (jsLookup row metric) with
    | none =>
      rw [hp] at h0
      exact hinv r0 v0 h0
    | some w =>
      rw [hp] at h0
      cases acc with
      | none =>
        dsimp only at h0
        cases h0
        exact hp
      | some p =>
        obtain ⟨pr, tv⟩ := p
        dsimp only at h0
        split at h0
        · cases h0
          exact hp
        · exact hinv r0 v0 h0

/-- A sheet analysis of the extremum handler reports a row whose metric
cell parses to the reported value. -/
theorem maxMinSheetResult_parses (lq sn : String) (rows : List Row)
    (ms : MaxMinSheet) (h : maxMinSheetResult lq sn rows = some ms) :
    parseFloatOpt (jsLookup ms.row ms.metricColumn) = some ms.value := by
  unfold maxMinSheetResult at h
  split at h
  · cases h
  · dsimp only at h
    split at h
    · cases h
    · split at h
      · cases h
      · split at h
        · cases h
        · cases h
          dsimp only
          rename_i hscan
          unfold scanExtreme at hscan
          exact scanExtreme_go _ _ _ none (fun r0 v0 h0 => by cases h0) _ _
            hscan

/-- Claim C7 (amended): the aggregation values, the re-architected top-N
and bottom-N rankings, and the extremum handler all draw only on cells
whose permissive float parse succeeds — an unparseable cell never enters
the statistics, never contributes a row to those rankings, and never
supplies the reported extremum. -/
theorem numeric_exclusion :
    (∀ (rows : List Row) (column : String) (v : Rat),
      v ∈ aggValues rows column →
        ∃ r ∈ rows, parseFloatOpt (jsLookup r column) = some v) ∧
    (∀ (question : String) (data : ExcelData) (n : Nat) (s : RankedSheet)
      (r : Row), s ∈ processTopNQuery question data n → r ∈ s.rows →
        (parseFloatOpt (jsLookup r s.column)).isSome = true) ∧
    (∀ (question : String) (data : ExcelData) (n : Nat) (s : RankedSheet)
      (r : Row), s ∈ processBottomNQuery question data n → r ∈ s.rows →
        (parseFloatOpt (jsLookup r s.column)).isSome = true) ∧
    (∀ (question : String) (data : ExcelData) (results : List MaxMinSheet)
      (ms : MaxMinSheet), processMaxMinQuery question data = some results →
        ms ∈ results →
        parseFloatOpt (jsLookup ms.row ms.metricColumn) = some ms.value) := by
  refine ⟨?_, ?_, ?_, ?_⟩
  · intro rows column v hv
    unfold aggValues at hv
    rw [List.filterMap_map, List.mem_filterMap] at hv
    obtain ⟨r, hr, he⟩ := hv
    exact ⟨r, hr, he⟩
  · intro question data n s r hs hr
    unfold processTopNQuery at hs
    rw [List.mem_filterMap] at hs
    obtain ⟨sh, -, he⟩ := hs
    unfold topNSheetResult at he
    split at he
    · cases he
    · dsimp only at he
      split at he
      · cases he
      · split at he
        · cases he
        · cases he
          dsimp only at hr ⊢
          have hr2 := List.mem_of_mem_take hr
          rw [mem_jsSort, List.mem_filter] at hr2
          have hp := hr2.2
          rw [Bool.and_eq_true] at hp
          exact hp.2
  · intro question data n s r hs hr
    unfold processBottomNQuery at hs
    rw [List.mem_filterMap] at hs
    obtain ⟨sh, -, he⟩ := hs
    unfold bottomNSheetResult at he
    split at he
    · cases he
    · dsimp only at he
      split at he
      · cases he
      · split at he
        · cases he
        · cases he
          dsimp only at hr ⊢
          have hr2 := List.mem_of_mem_take hr
          rw [mem_jsSort, List.mem_filter] at hr2
          have hp := hr2.2
          rw [Bool.and_eq_true] at hp
          exact hp.2
  · intro question data results ms hpm hms
    unfold processMaxMinQuery at hpm
    dsimp only at hpm
    split at hpm
    · cases hpm
    · split at hpm
      · cases hpm
      · cases hpm
        rw [List.mem_filterMap] at hms
        obtain ⟨sh, -, he⟩ := hms
        exact maxMinSheetResult_parses _ _ _ _ he

/-- Witness for the amended C7 at concrete inputs: the aggregation
values, a top-N ranking, a bottom-N ranking and an extremum analysis. -/
theorem numeric_exclusion_witness :
    (∃ r ∈ pokeRows, parseFloatOpt (jsLookup r "Attack") = some 50) ∧
    (parseFloatOpt (jsLookup rowB "Attack")).isSome = true ∧
    (parseFloatOpt (jsLookup rowD "Attack")).isSome = true ∧
    parseFloatOpt (jsLookup rowB "Attack") = some 50 := by
  refine ⟨?_, ?_, ?_, ?_⟩
  · exact numeric_exclusion.1 pokeRows "Attack" 50 (by decide)
  · exact numeric_exclusion.2.1 "top 3 by Attack" pokeData 3
      { sheetName := "Sheet1", column := "Attack", rows := [rowB, rowC, rowA],
        identifierColumn := "Name",
        chart := { type := "bar", title := "Top 3 by Attack",
                   data := [rowB, rowC, rowA], xKey := "Name",
                   yKey := "Attack" } }
      rowB (by decide) (by decide)
  · exact numeric_exclusion.2.2.1 "bottom 2 by Attack" pokeData 2
      { sheetName := "Sheet1", column := "Attack", rows := [rowD, rowA],
        identifierColumn := "Name",
        chart := { type := "bar", title := "Bottom 2 by Attack",
                   data := [rowD, rowA], xKey := "Name",
                   yKey := "Attack" } }
      rowD (by decide) (by decide)
  · exact numeric_exclusion.2.2.2 "highest Attack" pokeData
      [{ sheetName := "Sheet1", metricColumn := "Attack", isMax := true,
         row := rowB, value := 50,
         chart := { type := "bar", title := "Highest Attack for B",
                    data := [[("Identifier", Value.str "B"),
                              ("Attack", Value.num 50)]],
                    xKey := "Identifier", yKey := "Attack" } }]
      { sheetName := "Sheet1", metricColumn := "Attack", isMax := true,
        row := rowB, value := 50,
        chart := { type := "bar", title := "Highest Attack for B",
                   data := [[("Identifier", Value.str "B"),
                             ("Attack", Value.num 50)]],
                   xKey := "Identifier", yKey := "Attack" } }
      (by decide) (by decide)

/-- The code's values list is the parseable-values list. -/
theorem aggValues_eq_parseable (rows : List Row) (column : String) :
    aggValues rows column = parseableValues rows column := by
  unfold aggValues parseableValues
  rw [List.filterMap_map]
  rfl

/-- Folding the modelled float addition is summing. -/
theorem foldl_ratAdd_eq_sum (l : List Rat) : ∀ a : Rat, l.foldl ratAdd a = a + l.sum := by
  induction l with
  | nil => intro a; simp
  | cons x t ih =>
    intro a
    rw [List.foldl_cons, ih, ratAdd_eq_add, List.sum_cons]
    ring

/-- Claim C9 (confirmed): for any sheet of the dataset and any column of
its headers holding at least one number-typed cell, the aggregation handler
reports the sheet and the column, the reported sum equals the arithmetic
sum of the column's parseable values, the reported count equals their
number, and the computation is pure, so repeated calls coincide. -/
theorem aggregation_sum_count (data : ExcelData) (sheetName : String)
    (rows : List Row) (column : String)
    (hsheet : (sheetName, rows) ∈ data.sheets)
    (hcol : column ∈ sheetHeaders rows)
    (hnum : ∃ r ∈ rows, isNumValue (jsLookup r column) = true) :
    (sheetName, processAggSheetA rows) ∈ processAggregationQueryA data ∧
    (∃ stats, (column, stats) ∈ processAggSheetA rows ∧
      stats.sum = (parseableValues rows column).sum ∧
      stats.count = (parseableValues rows column).length) ∧
    processAggSheetA rows = processAggSheetA rows := by
  obtain ⟨r0, hr0, hnv⟩ := hnum
  have hparse : numericCellStrict (jsLookup r0 column) = true := by
    cases hv : jsLookup r0 column with
    | none => rw [hv] at hnv; cases hnv
    | some v =>
      cases v with
      | str s => rw [hv] at hnv; cases hnv
      | num q => rfl
  have hmemNC : column ∈ numericColumnsStrict rows := by
    unfold numericColumnsStrict
    rw [List.mem_filter]
    refine ⟨hcol, ?_⟩
    rw [List.any_eq_true]
    exact ⟨r0, hr0, hparse⟩
  obtain ⟨q, hq⟩ : ∃ q, parseFloatOpt (jsLookup r0 column) = some q := by
    have hp2 := hparse
    unfold numericCellStrict at hp2
    rw [Bool.and_eq_true] at hp2
    exact Option.isSome_iff_exists.mp hp2.1
  have hqmem : q ∈ aggValues rows column := by
    rw [aggValues_eq_parseable]
    unfold parseableValues
    rw [List.mem_filterMap]
    exact ⟨r0, hr0, hq⟩
  have hne2 : (aggValues rows column).isEmpty = false := by
    cases hl : aggValues rows column with
    | nil => rw [hl] at hqmem; cases hqmem
    | cons a t => rfl
  refine ⟨?_, ⟨aggStatsOf (aggValues rows column), ?_, ?_, ?_⟩, rfl⟩
  · unfold processAggregationQueryA
    rw [List.mem_filterMap]
    refine ⟨(sheetName, rows), hsheet, ?_⟩
    have hre : rows.isEmpty = false := by
      cases hl : rows with
      | nil => rw [hl] at hr0; cases hr0
      | cons a t => rfl
    have hnce : (numericColumnsStrict rows).isEmpty = false := by
      cases hl : numericColumnsStrict rows with
      | nil => rw [hl] at hmemNC; cases hmemNC
      | cons a t => rfl
    dsimp only
    rw [hre, hnce]
    rfl
  · unfold processAggSheetA
    rw [List.mem_filterMap]
    refine ⟨column, hmemNC, ?_⟩
    dsimp only
    rw [hne2]
    rfl
  · show (aggValues rows column).foldl ratAdd 0 = (parseableValues rows column).sum
    rw [foldl_ratAdd_eq_sum, zero_add, aggValues_eq_parseable]
  · show (aggValues rows column).length = (parseableValues rows column).length
    rw [aggValues_eq_parseable]

/-- Witness for C9 on the scenario dataset's Attack column. -/
theorem aggregation_sum_count_witness :
    ("Sheet1", processAggSheetA pokeRows) ∈ processAggregationQueryA pokeData ∧
    (∃ stats, ("Attack", stats) ∈ processAggSheetA pokeRows ∧
      stats.sum = (parseableValues pokeRows "Attack").sum ∧
      stats.count = (parseableValues pokeRows "Attack").length) ∧
    processAggSheetA pokeRows = processAggSheetA pokeRows :=
  aggregation_sum_count pokeData "Sheet1" pokeRows "Attack" (by decide)
    (by decide) ⟨rowA, by decide, by decide⟩

/-! ## Correctness of the JSON round trip (claim C2) -/

/-- The facts needed about rendered digit characters, checked by decision. -/
theorem digitChar_facts : ∀ k : Nat, k < 10 →
    ((Char.ofNat (48 + k)).isDigit = true ∧
     digitVal (Char.ofNat (48 + k)) = k ∧
     isWsChar (Char.ofNat (48 + k)) = false ∧
     Char.ofNat (48 + k) ≠ '{' ∧ Char.ofNat (48 + k) ≠ '[' ∧
     Char.ofNat (48 + k) ≠ '"' ∧ Char.ofNat (48 + k) ≠ 'n' ∧
     Char.ofNat (48 + k) ≠ 't' ∧ Char.ofNat (48 + k) ≠ 'f' ∧
     Char.ofNat (48 + k) ≠ '-' ∧ Char.ofNat (48 + k) ≠ '.' ∧
     Char.ofNat (48 + k) ≠ ',' ∧ Char.ofNat (48 + k) ≠ '}' ∧
     Char.ofNat (48 + k) ≠ ']' ∧ Char.ofNat (48 + k) ≠ ':') := by decide

/-- The digit renderer ignores surplus fuel. -/
theorem natToCharsAux_fuel (fuel1 fuel2 n : Nat) (acc : List Char)
    (h1 : n < fuel1) (h2 : n < fuel2) :
    natToCharsAux fuel1 n acc = natToCharsAux fuel2 n acc := by
  induction n using Nat.strong_induction_on generalizing fuel1 fuel2 acc with
  | _ n ih =>
    cases fuel1 with
    | zero => omega
    | succ f1 =>
      cases fuel2 with
      | zero => omega
      | succ f2 =>
        unfold natToCharsAux
        dsimp only
        by_cases hn : n < 10
        · rw [if_pos hn, if_pos hn]
        · rw [if_neg hn, if_neg hn]
          have hlt : n / 10 < n := Nat.div_lt_self (by omega) (by omega)
          exact ih (n / 10) hlt _ _ _ (by omega) (by omega)

/-- The accumulator of the digit renderer is a suffix. -/
theorem natToCharsAux_acc (n : Nat) (acc : List Char) :
    natToCharsAux (n + 1) n acc = natToChars n ++ acc := by
  induction n using Nat.strong_induction_on generalizing acc with
  | _ n ih =>
    unfold natToChars natToCharsAux
    dsimp only
    by_cases hn : n < 10
    · rw [if_pos hn, if_pos hn]
      rfl
    · rw [if_neg hn, if_neg hn]
      have hlt : n / 10 < n := Nat.div_lt_self (by omega) (by omega)
      rw [natToCharsAux_fuel n (n / 10 + 1) (n / 10)
            (Char.ofNat (48 + n % 10) :: acc) (by omega) (by omega),
          natToCharsAux_fuel n (n / 10 + 1) (n / 10)
            [Char.ofNat (48 + n % 10)] (by omega) (by omega),
          ih (n / 10) hlt, ih (n / 10) hlt, List.append_assoc]
      rfl

/-- Appending one digit multiplies by ten and adds it. -/
theorem digitsToNat_append_one (l : List Char) (c : Char) :
    digitsToNat (l ++ [c]) = 10 * digitsToNat l + digitVal c := by
  unfold digitsToNat
  rw [List.foldl_append]
  rfl

/-- Rendered digits: non-empty, made of digit characters of the expected
shape, and reading them back yields the number. -/
theorem natToChars_spec (n : Nat) :
    natToChars n ≠ [] ∧
    (∀ c ∈ natToChars n, ∃ k, k < 10 ∧ c = Char.ofNat (48 + k)) ∧
    digitsToNat (natToChars n) = n := by
  induction n using Nat.strong_induction_on with
  | _ n ih =>
    by_cases hn : n < 10
    · have he : natToChars n = [Char.ofNat (48 + n % 10)] := by
        unfold natToChars natToCharsAux
        dsimp only
        rw [if_pos hn]
      rw [he]
      have hmod : n % 10 = n := Nat.mod_eq_of_lt hn
      refine ⟨by simp, ?_, ?_⟩
      · intro c hc
        rw [List.mem_singleton] at hc
        exact ⟨n % 10, Nat.mod_lt _ (by omega), hc⟩
      · have := (digitChar_facts (n % 10) (Nat.mod_lt _ (by omega))).2.1
        unfold digitsToNat
        simp only [List.foldl_cons, List.foldl_nil]
        omega
    · have hlt : n / 10 < n := Nat.div_lt_self (by omega) (by omega)
      have he : natToChars n = natToChars (n / 10) ++ [Char.ofNat (48 + n % 10)] := by
        conv_lhs => unfold natToChars natToCharsAux
        dsimp only
        rw [if_neg hn,
            natToCharsAux_fuel n (n / 10 + 1) (n / 10)
              [Char.ofNat (48 + n % 10)] (by omega) (by omega),
            natToCharsAux_acc]
      obtain ⟨h1, h2, h3⟩ := ih (n / 10) hlt
      rw [he]
      refine ⟨by simp, ?_, ?_⟩
      · intro c hc
        rw [List.mem_append, List.mem_singleton] at hc
        cases hc with
        | inl h => exact h2 c h
        | inr h => exact ⟨n % 10, Nat.mod_lt _ (by omega), h⟩
      · have hd := (digitChar_facts (n % 10) (Nat.mod_lt _ (by omega))).2.1
        rw [digitsToNat_append_one, h3, hd]
        omega

/-- `takeWhile` over an all-true block stops exactly at the boundary. -/
theorem takeWhile_append_all {p : Char → Bool} {l rest : List Char}
    (hall : ∀ c ∈ l, p c = true)
    (hr : ∀ c, rest.head? = some c → p c = false) :
    (l ++ rest).takeWhile p = l := by
  induction l with
  | nil =>
    cases rest with
    | nil => rfl
    | cons c t =>
      simp [List.takeWhile_cons, hr c rfl]
  | cons a l2 ih =>
    simp [List.takeWhile_cons, hall a (List.mem_cons_self a l2),
      ih (fun c hc => hall c (List.mem_cons_of_mem a hc))]

/-- A fractionless digit capture is the integer it spells. -/
theorem ratOfDigits_nil (ds : List Char) :
    ratOfDigits ds [] = (digitsToNat ds : Rat) := by
  unfold ratOfDigits
  have h0 : digitsToNat [] = 0 := rfl
  rw [h0]
  norm_num

/-- The number reader recovers a rendered natural number. -/
theorem parseJsonNumNoSign_nat (m : Nat) (rest : List Char)
    (hrest : ∀ c, rest.head? = some c → (c.isDigit = false ∧ c ≠ '.')) :
    parseJsonNumNoSign (natToChars m ++ rest) = some ((m : Rat), rest) := by
  obtain ⟨hne, hall, hval⟩ := natToChars_spec m
  have halld : ∀ c ∈ natToChars m, c.isDigit = true := by
    intro c hc
    obtain ⟨k, hk, rfl⟩ := hall c hc
    exact (digitChar_facts k hk).1
  unfold parseJsonNumNoSign
  rw [takeWhile_append_all halld (fun c hc => (hrest c hc).1)]
  dsimp only
  rw [if_neg (by simpa using hne), List.drop_left]
  cases rest with
  | nil =>
    dsimp only
    rw [ratOfDigits_nil, hval]
  | cons c t =>
    dsimp only
    rw [if_neg (hrest c rfl).2, ratOfDigits_nil, hval]

/-- The number reader recovers a rendered integer. -/
theorem parseJsonNum_int (n : Int) (rest : List Char)
    (hrest : ∀ c, rest.head? = some c → (c.isDigit = false ∧ c ≠ '.')) :
    parseJsonNum (intToChars n ++ rest) = some ((n : Rat), rest) := by
  unfold intToChars
  by_cases hn : n < 0
  · rw [if_pos hn, List.cons_append]
    unfold parseJsonNum
    dsimp only
    rw [if_pos rfl, parseJsonNumNoSign_nat n.natAbs rest hrest]
    show some (-((n.natAbs : Nat) : Rat), rest) = some ((n : Rat), rest)
    have h2 : ((n.natAbs : Nat) : Rat) = -(n : Rat) := by
      have h4 : ((n.natAbs : Nat) : Rat) = ((n.natAbs : Int) : Rat) :=
        (Int.cast_natCast n.natAbs).symm
      rw [h4, Int.ofNat_natAbs_of_nonpos (by omega), Int.cast_neg]
    rw [h2, neg_neg]
  · rw [if_neg hn]
    obtain ⟨hne2, hall, -⟩ := natToChars_spec n.natAbs
    cases hh : natToChars n.natAbs with
    | nil => exact absurd hh hne2
    | cons c0 t0 =>
      have hc0 : ∃ k, k < 10 ∧ c0 = Char.ofNat (48 + k) := by
        apply hall
        rw [hh]
        exact List.mem_cons_self c0 t0
      obtain ⟨k, hk, rfl⟩ := hc0
      rw [List.cons_append]
      unfold parseJsonNum
      dsimp only
      rw [if_neg (digitChar_facts k hk).2.2.2.2.2.2.2.2.2.1,
          ← List.cons_append, ← hh, parseJsonNumNoSign_nat n.natAbs rest hrest]
      have h2 : ((n.natAbs : Nat) : Rat) = (n : Rat) := by
        have h4 : ((n.natAbs : Nat) : Rat) = ((n.natAbs : Int) : Rat) :=
          (Int.cast_natCast n.natAbs).symm
        rw [h4, Int.natAbs_of_nonneg (by omega)]
      rw [h2]

/-- A cons-headed remainder satisfies a head condition its head does. -/
theorem head_stop2 (c : Char) {p : Char → Bool} (h : p c = false)
    (l : List Char) :
    ∀ d, (c :: l).head? = some d → p d = false := by
  intro d hd
  simp only [List.head?_cons, Option.some_inj] at hd
  subst hd
  exact h

/-- Fractional-digit characters are digits. -/
theorem digitChars_digits (ks : List Nat) :
    ∀ c ∈ digitChars ks, c.isDigit = true := by
  intro c hc
  unfold digitChars at hc
  rw [List.mem_map] at hc
  obtain ⟨k, -, rfl⟩ := hc
  exact (digitChar_facts (k % 10) (Nat.mod_lt k (by omega))).1

/-- The number reader recovers a rendered unsigned decimal. -/
theorem parseJsonNumNoSign_dec (m f0 : Nat) (fs : List Nat) (rest : List Char)
    (hrest : ∀ c, rest.head? = some c → c.isDigit = false) :
    parseJsonNumNoSign (natToChars m ++ '.' :: (digitChars (f0 :: fs) ++ rest)) =
      some (ratOfDigits (natToChars m) (digitChars (f0 :: fs)), rest) := by
  obtain ⟨hne, hall, -⟩ := natToChars_spec m
  have halld : ∀ c ∈ natToChars m, c.isDigit = true := by
    intro c hc
    obtain ⟨k, hk, rfl⟩ := hall c hc
    exact (digitChar_facts k hk).1
  unfold parseJsonNumNoSign
  rw [takeWhile_append_all halld (head_stop2 '.' (by decide) _)]
  dsimp only
  rw [if_neg (by simpa using hne), List.drop_left]
  dsimp only
  rw [if_pos rfl,
    takeWhile_append_all (digitChars_digits (f0 :: fs)) hrest]
  rw [if_neg (by simp [digitChars]), List.drop_left]

/-- The number reader recovers a rendered signed decimal. -/
theorem parseJsonNum_dec (neg : Bool) (m f0 : Nat) (fs : List Nat)
    (rest : List Char)
    (hrest : ∀ c, rest.head? = some c → (c.isDigit = false ∧ c ≠ '.')) :
    parseJsonNum (renderPrim (.pdec neg m f0 fs) ++ rest) =
      some (decValue neg m f0 fs, rest) := by
  have hr1 : ∀ c, rest.head? = some c → c.isDigit = false :=
    fun c hc => (hrest c hc).1
  cases neg with
  | true =>
    show parseJsonNum (('-' :: (natToChars m ++ '.' :: digitChars (f0 :: fs)))
      ++ rest) = some (decValue true m f0 fs, rest)
    simp only [List.cons_append, List.append_assoc]
    unfold parseJsonNum
    dsimp only
    rw [if_pos rfl, parseJsonNumNoSign_dec m f0 fs rest hr1]
    rfl
  | false =>
    show parseJsonNum ((natToChars m ++ '.' :: digitChars (f0 :: fs)) ++ rest)
      = some (decValue false m f0 fs, rest)
    obtain ⟨hne2, hall, -⟩ := natToChars_spec m
    cases hh : natToChars m with
    | nil => exact absurd hh hne2
    | cons c0 t0 =>
      have hc0 : ∃ k, k < 10 ∧ c0 = Char.ofNat (48 + k) := by
        apply hall
        rw [hh]
        exact List.mem_cons_self c0 t0
      obtain ⟨k, hk, rfl⟩ := hc0
      rw [List.cons_append, List.cons_append]
      unfold parseJsonNum
      dsimp only
      rw [if_neg (digitChar_facts k hk).2.2.2.2.2.2.2.2.2.1,
          ← List.cons_append, ← List.cons_append, ← hh, List.append_assoc,
          List.cons_append, parseJsonNumNoSign_dec m f0 fs rest hr1]
      rfl

/-- The string-body reader undoes the escape. -/
theorem parseStrBody_escape (s rest : List Char) :
    parseStrBody (escapeChars s ++ '"' :: rest) = some (s, rest) := by
  induction s with
  | nil =>
    show parseStrBody ('"' :: rest) = some ([], rest)
    unfold parseStrBody
    rw [if_pos rfl]
  | cons c cs ih =>
    unfold escapeChars
    by_cases h1 : c = '"'
    · subst h1
      rw [if_pos rfl]
      simp [parseStrBody, unescChar, ih]
    · by_cases h2 : c = '\\'
      · subst h2
        rw [if_neg (by decide), if_pos rfl]
        simp [parseStrBody, unescChar, ih]
      · rw [if_neg h1, if_neg h2, List.cons_append]
        unfold parseStrBody
        rw [if_neg h1, if_neg h2, ih]
        rfl

/-- `dropWhile` keeps a list with a non-whitespace head. -/
theorem dropWhile_nonws {c : Char} {l : List Char} (h : isWsChar c = false) :
    (c :: l).dropWhile isWsChar = c :: l := by
  simp [List.dropWhile_cons, h]

/-- A list begins with itself. -/
theorem isPrefixOf_self_append (pat rest : List Char) :
    pat.isPrefixOf (pat ++ rest) = true := by
  induction pat with
  | nil => simp [List.isPrefixOf]
  | cons c t ih => simp [List.isPrefixOf, ih]

/-- A literal strips off itself. -/
theorem stripLit_self (pat rest : List Char) :
    stripLit pat (pat ++ rest) = some rest := by
  unfold stripLit
  rw [if_pos (isPrefixOf_self_append pat rest), List.drop_left]

/-- The rendered integer starts with a minus sign or a digit character,
never whitespace or a structural character. -/
theorem intToChars_head (n : Int) :
    ∃ c1 t1, intToChars n = c1 :: t1 ∧ isWsChar c1 = false ∧
      c1 ≠ '{' ∧ c1 ≠ '[' ∧ c1 ≠ '"' ∧ c1 ≠ 'n' ∧ c1 ≠ 't' ∧ c1 ≠ 'f' := by
  unfold intToChars
  by_cases hn : n < 0
  · rw [if_pos hn]
    exact ⟨'-', natToChars n.natAbs, rfl, by decide, by decide, by decide,
      by decide, by decide, by decide, by decide⟩
  · rw [if_neg hn]
    obtain ⟨hne, hall, -⟩ := natToChars_spec n.natAbs
    cases hh : natToChars n.natAbs with
    | nil => exact absurd hh hne
    | cons c1 t1 =>
      have hc1 : ∃ k, k < 10 ∧ c1 = Char.ofNat (48 + k) := by
        apply hall
        rw [hh]
        exact List.mem_cons_self c1 t1
      obtain ⟨k, hk, rfl⟩ := hc1
      have hf := digitChar_facts k hk
      exact ⟨_, _, rfl, hf.2.2.1, hf.2.2.2.1, hf.2.2.2.2.1, hf.2.2.2.2.2.1,
        hf.2.2.2.2.2.2.1, hf.2.2.2.2.2.2.2.1, hf.2.2.2.2.2.2.2.2.1⟩

/-- The rendered decimal starts with a minus sign or a digit character,
never whitespace or a structural character. -/
theorem renderPrim_pdec_head (neg : Bool) (m f0 : Nat) (fs : List Nat) :
    ∃ c1 t1, renderPrim (.pdec neg m f0 fs) = c1 :: t1 ∧ isWsChar c1 = false ∧
      c1 ≠ '{' ∧ c1 ≠ '[' ∧ c1 ≠ '"' ∧ c1 ≠ 'n' ∧ c1 ≠ 't' ∧ c1 ≠ 'f' := by
  cases neg with
  | true =>
    exact ⟨'-', natToChars m ++ '.' :: digitChars (f0 :: fs), rfl, by decide,
      by decide, by decide, by decide, by decide, by decide, by decide⟩
  | false =>
    obtain ⟨hne, hall, -⟩ := natToChars_spec m
    cases hh : natToChars m with
    | nil => exact absurd hh hne
    | cons c1 t1 =>
      have hc1 : ∃ k, k < 10 ∧ c1 = Char.ofNat (48 + k) := by
        apply hall
        rw [hh]
        exact List.mem_cons_self c1 t1
      obtain ⟨k, hk, rfl⟩ := hc1
      have hf := digitChar_facts k hk
      refine ⟨Char.ofNat (48 + k), t1 ++ '.' :: digitChars (f0 :: fs), ?_,
        hf.2.2.1, hf.2.2.2.1, hf.2.2.2.2.1, hf.2.2.2.2.2.1,
        hf.2.2.2.2.2.2.1, hf.2.2.2.2.2.2.2.1, hf.2.2.2.2.2.2.2.2.1⟩
      show (if false then ('-' :: (natToChars m ++ '.' :: digitChars (f0 :: fs))
          : List Char)
        else natToChars m ++ '.' :: digitChars (f0 :: fs)) =
        Char.ofNat (48 + k) :: (t1 ++ '.' :: digitChars (f0 :: fs))
      rw [if_neg (by decide), hh, List.cons_append]

/-- The value parser recovers one rendered scalar and leaves the rest. -/
theorem parseP_prim (p : Prim) (rest : List Char) (fuel : Nat)
    (hfuel : 1 ≤ fuel)
    (hrest : ∀ c, rest.head? = some c → (c.isDigit = false ∧ c ≠ '.')) :
    parseP fuel .val (renderPrim p ++ rest) = some (.jval p.toJson, rest) := by
  cases fuel with
  | zero => omega
  | succ f =>
    cases p with
    | pnull =>
      show parseP (f + 1) .val ('n' :: ("ull".data ++ rest)) =
        some (.jval Json.null, rest)
      unfold parseP
      rw [dropWhile_nonws (by decide)]
      dsimp only
      rw [if_neg (by decide), if_neg (by decide), if_neg (by decide),
          if_pos rfl, stripLit_self]
      rfl
    | pbool b =>
      cases b with
      | true =>
        show parseP (f + 1) .val ('t' :: ("rue".data ++ rest)) =
          some (.jval (Json.bool true), rest)
        unfold parseP
        rw [dropWhile_nonws (by decide)]
        dsimp only
        rw [if_neg (by decide), if_neg (by decide), if_neg (by decide),
            if_neg (by decide), if_pos rfl, stripLit_self]
        rfl
      | false =>
        show parseP (f + 1) .val ('f' :: ("alse".data ++ rest)) =
          some (.jval (Json.bool false), rest)
        unfold parseP
        rw [dropWhile_nonws (by decide)]
        dsimp only
        rw [if_neg (by decide), if_neg (by decide), if_neg (by decide),
            if_neg (by decide), if_neg (by decide), if_pos rfl, stripLit_self]
        rfl
    | pint n =>
      obtain ⟨c1, t1, hic, hws, h1, h2, h3, h4, h5, h6⟩ := intToChars_head n
      show parseP (f + 1) .val (intToChars n ++ rest) =
        some (.jval (Json.num (n : Rat)), rest)
      rw [hic, List.cons_append]
      unfold parseP
      rw [dropWhile_nonws hws]
      dsimp only
      rw [if_neg h1, if_neg h2, if_neg h3, if_neg h4, if_neg h5, if_neg h6,
          ← List.cons_append, ← hic, parseJsonNum_int n rest hrest]
      rfl
    | pdec neg m f0 fs =>
      obtain ⟨c1, t1, hic, hws, h1, h2, h3, h4, h5, h6⟩ :=
        renderPrim_pdec_head neg m f0 fs
      show parseP (f + 1) .val (renderPrim (.pdec neg m f0 fs) ++ rest) =
        some (.jval (Json.num (decValue neg m f0 fs)), rest)
      rw [hic, List.cons_append]
      unfold parseP
      rw [dropWhile_nonws hws]
      dsimp only
      rw [if_neg h1, if_neg h2, if_neg h3, if_neg h4, if_neg h5, if_neg h6,
          ← List.cons_append, ← hic, parseJsonNum_dec neg m f0 fs rest hrest]
      rfl
    | pstr s =>
      show parseP (f + 1) .val
        (('"' :: (escapeChars s.data ++ ['"'])) ++ rest) =
        some (.jval (Json.str s), rest)
      rw [List.cons_append, List.append_assoc]
      unfold parseP
      rw [dropWhile_nonws (by decide)]
      dsimp only
      rw [if_neg (by decide), if_neg (by decide), if_pos rfl]
      rw [show ['"'] ++ rest = '"' :: rest from rfl, parseStrBody_escape]
      simp [strMk_data]

/-- The value parser recovers a rendered string literal. -/
theorem parseP_strVal (s : String) (r : List Char) (g : Nat) :
    parseP (g + 1) .val ('"' :: (escapeChars s.data ++ '"' :: r)) =
      some (.jval (.str s), r) := by
  unfold parseP
  rw [dropWhile_nonws (by decide)]
  dsimp only
  rw [if_neg (by decide), if_neg (by decide), if_pos rfl, parseStrBody_escape]
  simp [strMk_data]

/-- Any character may follow a rendered value when it is neither a digit
nor a decimal point. -/
theorem head_stop (c : Char) (h1 : c.isDigit = false) (h2 : c ≠ '.')
    (l : List Char) :
    ∀ d, (c :: l).head? = some d → (d.isDigit = false ∧ d ≠ '.') := by
  intro d hd
  simp only [List.head?_cons, Option.some_inj] at hd
  subst hd
  exact ⟨h1, h2⟩

/-- The member parser recovers the rendered members of a nonempty record
and consumes the closing brace. -/
theorem parseP_recordFields (flds : List (String × Prim)) (rest : List Char)
    (fuel : Nat) (hne : flds ≠ []) (hfuel : flds.length + 1 ≤ fuel) :
    parseP fuel .fields (renderFieldsP flds ++ '}' :: rest) =
      some (.jfields (flds.map (fun p => (p.1, p.2.toJson))), rest) := by
  induction flds generalizing rest fuel with
  | nil => exact absurd rfl hne
  | cons f tail ih =>
    obtain ⟨k, v⟩ := f
    cases fuel with
    | zero => omega
    | succ fu =>
      cases tail with
      | nil =>
        show parseP (fu + 1) .fields
          ((renderString k ++ ':' :: renderPrim v) ++ '}' :: rest) =
          some (.jfields [(k, v.toJson)], rest)
        rw [renderString]
        simp only [List.cons_append, List.append_assoc, List.singleton_append,
          List.nil_append]
        unfold parseP
        rw [dropWhile_nonws (by decide)]
        dsimp only
        rw [if_pos rfl, parseStrBody_escape]
        dsimp only
        rw [dropWhile_nonws (by decide)]
        dsimp only
        rw [if_pos rfl,
            parseP_prim v ('}' :: rest) fu (by simp at hfuel; omega)
              (head_stop '}' (by decide) (by decide) rest)]
        dsimp only
        rw [dropWhile_nonws (by decide)]
        dsimp only
        rw [if_neg (by decide), if_pos rfl, strMk_data]
      | cons f2 tail2 =>
        show parseP (fu + 1) .fields
          ((renderString k ++ ':' :: renderPrim v ++
            ',' :: renderFieldsP (f2 :: tail2)) ++ '}' :: rest) =
          some (.jfields ((k, v.toJson) ::
            (f2 :: tail2).map (fun p => (p.1, p.2.toJson))), rest)
        rw [renderString]
        simp only [List.cons_append, List.append_assoc, List.singleton_append,
          List.nil_append]
        unfold parseP
        rw [dropWhile_nonws (by decide)]
        dsimp only
        rw [if_pos rfl, parseStrBody_escape]
        dsimp only
        rw [dropWhile_nonws (by decide)]
        dsimp only
        rw [if_pos rfl,
            parseP_prim v (',' :: (renderFieldsP (f2 :: tail2) ++ '}' :: rest))
              fu (by simp at hfuel; omega)
              (head_stop ',' (by decide) (by decide) _)]
        dsimp only
        rw [dropWhile_nonws (by decide)]
        dsimp only
        rw [if_pos rfl, ih rest fu (by simp) (by simp at hfuel ⊢; omega)]

/-- A rendered nonempty member list starts with a double quote. -/
theorem renderFieldsP_cons_head (f : String × Prim) (t : List (String × Prim)) :
    ∃ l, renderFieldsP (f :: t) = '"' :: l := by
  obtain ⟨k, v⟩ := f
  cases t with
  | nil => exact ⟨_, rfl⟩
  | cons f2 t2 => exact ⟨_, rfl⟩

/-- The value parser recovers a rendered record. -/
theorem parseP_recordVal (r : List (String × Prim)) (rest : List Char)
    (fuel : Nat) (hfuel : needRecordV r ≤ fuel) :
    parseP fuel .val (renderRecord r ++ rest) =
      some (.jval (recordToJson r), rest) := by
  unfold needRecordV at hfuel
  cases fuel with
  | zero => omega
  | succ fu =>
    show parseP (fu + 1) .val (('{' :: (renderFieldsP r ++ ['}'])) ++ rest) =
      some (.jval (recordToJson r), rest)
    simp only [List.cons_append, List.append_assoc, List.singleton_append,
      List.nil_append]
    unfold parseP
    rw [dropWhile_nonws (by decide)]
    dsimp only
    rw [if_pos rfl]
    cases r with
    | nil =>
      show (match stripChar '}' (([] ++ '}' :: rest).dropWhile isWsChar) with
        | some r2 => some (PRes.jval (Json.obj []), r2)
        | none =>
          match parseP fu .fields ([] ++ '}' :: rest) with
          | some (.jfields fs, r2) => some (.jval (.obj fs), r2)
          | _ => none) = some (.jval (recordToJson []), rest)
      rw [List.nil_append, dropWhile_nonws (by decide)]
      rfl
    | cons f t =>
      obtain ⟨l, hl⟩ := renderFieldsP_cons_head f t
      have hf := parseP_recordFields (f :: t) rest fu (by simp)
        (by simp at hfuel ⊢; omega)
      rw [hl] at hf ⊢
      rw [List.cons_append] at hf
      rw [List.cons_append, dropWhile_nonws (by decide)]
      dsimp only [stripChar]
      rw [if_neg (by decide), hf]
      rfl

/-- The element parser recovers a rendered nonempty chain of record
elements and consumes the closing bracket. -/
theorem parseP_recordElems (rs : List (List (String × Prim))) (rest : List Char)
    (fuel : Nat) (hne : rs ≠ []) (hfuel : needElemsL rs ≤ fuel) :
    parseP fuel .elems (renderRecordsList rs ++ ']' :: rest) =
      some (.jelems (rs.map recordToJson), rest) := by
  induction rs generalizing rest fuel with
  | nil => exact absurd rfl hne
  | cons r0 tl ih =>
    cases fuel with
    | zero => simp [needElemsL] at hfuel
    | succ fu =>
      cases tl with
      | nil =>
        show parseP (fu + 1) .elems (renderRecord r0 ++ ']' :: rest) =
          some (.jelems [recordToJson r0], rest)
        unfold parseP
        rw [parseP_recordVal r0 (']' :: rest) fu
          (by simp [needElemsL] at hfuel; omega)]
        dsimp only
        rw [dropWhile_nonws (by decide)]
        dsimp only
        rw [if_neg (by decide), if_pos rfl]
      | cons r1 tl2 =>
        show parseP (fu + 1) .elems
          ((renderRecord r0 ++ ',' :: renderRecordsList (r1 :: tl2)) ++
            ']' :: rest) =
          some (.jelems (recordToJson r0 :: (r1 :: tl2).map recordToJson), rest)
        simp only [List.cons_append, List.append_assoc, List.singleton_append,
          List.nil_append]
        unfold parseP
        rw [parseP_recordVal r0
          (',' :: (renderRecordsList (r1 :: tl2) ++ ']' :: rest)) fu
          (by simp [needElemsL] at hfuel; omega)]
        dsimp only
        rw [dropWhile_nonws (by decide)]
        dsimp only
        rw [if_pos rfl, ih rest fu (by simp)
          (by simp [needElemsL] at hfuel ⊢; omega)]

/-- A rendered nonempty record chain starts with an opening brace. -/
theorem renderRecordsList_cons_head (r0 : List (String × Prim))
    (tl : List (List (String × Prim))) :
    ∃ l, renderRecordsList (r0 :: tl) = '{' :: l := by
  cases tl with
  | nil => exact ⟨_, rfl⟩
  | cons r1 tl2 => exact ⟨_, rfl⟩

/-- The value parser recovers the rendered data array. -/
theorem parseP_records (rs : List (List (String × Prim))) (rest : List Char)
    (fuel : Nat) (hfuel : needElemsL rs + 1 ≤ fuel) :
    parseP fuel .val (renderRecords rs ++ rest) =
      some (.jval (recordsToJson rs), rest) := by
  cases fuel with
  | zero => omega
  | succ fu =>
    show parseP (fu + 1) .val (('[' :: (renderRecordsList rs ++ [']'])) ++ rest) =
      some (.jval (recordsToJson rs), rest)
    simp only [List.cons_append, List.append_assoc, List.singleton_append,
      List.nil_append]
    unfold parseP
    rw [dropWhile_nonws (by decide)]
    dsimp only
    rw [if_neg (by decide), if_pos rfl]
    cases rs with
    | nil =>
      show (match stripChar ']'
          ((renderRecordsList [] ++ ']' :: rest).dropWhile isWsChar) with
        | some r2 => some (PRes.jval (Json.arr []), r2)
        | none =>
          match parseP fu .elems (renderRecordsList [] ++ ']' :: rest) with
          | some (.jelems es, r2) => some (.jval (.arr es), r2)
          | _ => none) = some (.jval (recordsToJson []), rest)
      rw [show renderRecordsList [] ++ ']' :: rest = ']' :: rest from rfl,
        dropWhile_nonws (by decide)]
      rfl
    | cons r0 tl =>
      obtain ⟨l, hl⟩ := renderRecordsList_cons_head r0 tl
      have he := parseP_recordElems (r0 :: tl) rest fu (by simp)
        (by simp [needElemsL] at hfuel ⊢; omega)
      rw [hl] at he ⊢
      rw [List.cons_append] at he
      rw [List.cons_append, dropWhile_nonws (by decide)]
      dsimp only [stripChar]
      rw [if_neg (by decide), he]
      rfl

/-- At most four optional key members are ever rendered. -/
theorem optMembers_length_le (X : ChartSpec) : X.optMembers.length ≤ 4 := by
  unfold ChartSpec.optMembers
  cases X.xKey <;> cases X.yKey <;> cases X.nameKey <;> cases X.dataKey <;> simp

/-- The member parser recovers the `"data"` member and the trailing
optional key members of the rendered chart object. -/
theorem parseP_chartData (X : ChartSpec) (rest : List Char) (g : Nat)
    (hg1 : needElemsL X.data + 1 ≤ g) (hg2 : 5 ≤ g) :
    parseP (g + 1) .fields ('"' :: (escapeChars "data".data ++ '"' :: ':' ::
      (renderRecords X.data ++
        ((match X.optMembers with
          | [] => []
          | ms => ',' :: renderFieldsP ms) ++ '}' :: rest)))) =
      some (.jfields (("data", recordsToJson X.data) ::
        X.optMembers.map (fun p => (p.1, p.2.toJson))), rest) := by
  cases hms : X.optMembers with
  | nil =>
    rw [parseP]
    rw [dropWhile_nonws (by decide)]
    dsimp only
    rw [if_pos rfl, parseStrBody_escape]
    dsimp only
    rw [dropWhile_nonws (by decide)]
    dsimp only
    rw [if_pos rfl, List.nil_append,
      parseP_records X.data ('}' :: rest) g (by omega)]
    dsimp only
    rw [dropWhile_nonws (by decide)]
    dsimp only
    rw [if_neg (by decide), if_pos rfl]
    rfl
  | cons m ms =>
    rw [parseP]
    rw [dropWhile_nonws (by decide)]
    dsimp only
    rw [if_pos rfl, parseStrBody_escape]
    dsimp only
    rw [dropWhile_nonws (by decide)]
    dsimp only
    rw [if_pos rfl, List.cons_append,
      parseP_records X.data (',' :: (renderFieldsP (m :: ms) ++ '}' :: rest)) g
        (by omega)]
    dsimp only
    rw [dropWhile_nonws (by decide)]
    dsimp only
    have hlen : (m :: ms).length ≤ 4 := by
      rw [← hms]
      exact optMembers_length_le X
    rw [if_pos rfl, parseP_recordFields (m :: ms) rest g (by simp)
      (by simp at hlen ⊢; omega)]

/-- The member parser recovers the `"title"` member and everything after
it in the rendered chart object. -/
theorem parseP_chartTitle (X : ChartSpec) (rest : List Char) (g : Nat)
    (hg1 : needElemsL X.data + 2 ≤ g) (hg2 : 6 ≤ g) :
    parseP (g + 1) .fields ('"' :: (escapeChars "title".data ++ '"' :: ':' ::
      ('"' :: (escapeChars X.title.data ++ '"' :: ',' ::
        ('"' :: (escapeChars "data".data ++ '"' :: ':' ::
          (renderRecords X.data ++
            ((match X.optMembers with
              | [] => []
              | ms => ',' :: renderFieldsP ms) ++ '}' :: rest)))))))) =
      some (.jfields (("title", Json.str X.title) ::
        ("data", recordsToJson X.data) ::
        X.optMembers.map (fun p => (p.1, p.2.toJson))), rest) := by
  obtain ⟨g1, rfl⟩ : ∃ g1, g = g1 + 1 := ⟨g - 1, by omega⟩
  rw [parseP]
  rw [dropWhile_nonws (by decide)]
  dsimp only
  rw [if_pos rfl, parseStrBody_escape]
  dsimp only
  rw [dropWhile_nonws (by decide)]
  dsimp only
  rw [if_pos rfl, parseP_strVal X.title]
  dsimp only
  rw [dropWhile_nonws (by decide)]
  dsimp only
  rw [if_pos rfl, parseP_chartData X rest g1 (by omega) (by omega)]

/-- The member parser recovers all members of the rendered chart object. -/
theorem parseP_chartFields (X : ChartSpec) (rest : List Char) (g : Nat)
    (hg1 : needElemsL X.data + 3 ≤ g) (hg2 : 7 ≤ g) :
    parseP (g + 1) .fields ('"' :: (escapeChars "type".data ++ '"' :: ':' ::
      ('"' :: (escapeChars X.ctype.data ++ '"' :: ',' ::
        ('"' :: (escapeChars "title".data ++ '"' :: ':' ::
          ('"' :: (escapeChars X.title.data ++ '"' :: ',' ::
            ('"' :: (escapeChars "data".data ++ '"' :: ':' ::
              (renderRecords X.data ++
                ((match X.optMembers with
                  | [] => []
                  | ms => ',' :: renderFieldsP ms) ++ '}' :: rest)))))))))))) =
      some (.jfields (("type", Json.str X.ctype) ::
        ("title", Json.str X.title) :: ("data", recordsToJson X.data) ::
        X.optMembers.map (fun p => (p.1, p.2.toJson))), rest) := by
  obtain ⟨g1, rfl⟩ : ∃ g1, g = g1 + 1 := ⟨g - 1, by omega⟩
  rw [parseP]
  rw [dropWhile_nonws (by decide)]
  dsimp only
  rw [if_pos rfl, parseStrBody_escape]
  dsimp only
  rw [dropWhile_nonws (by decide)]
  dsimp only
  rw [if_pos rfl, parseP_strVal X.ctype]
  dsimp only
  rw [dropWhile_nonws (by decide)]
  dsimp only
  rw [if_pos rfl, parseP_chartTitle X rest g1 (by omega) (by omega)]

/-- The rendered chart-object members, with the trailing brace attached,
in head-normal form. -/
theorem chartMiddle_normal (X : ChartSpec) (rest : List Char) :
    chartMiddle X ++ '}' :: rest =
      '"' :: (escapeChars "type".data ++ '"' :: ':' ::
        ('"' :: (escapeChars X.ctype.data ++ '"' :: ',' ::
          ('"' :: (escapeChars "title".data ++ '"' :: ':' ::
            ('"' :: (escapeChars X.title.data ++ '"' :: ',' ::
              ('"' :: (escapeChars "data".data ++ '"' :: ':' ::
                (renderRecords X.data ++
                  ((match X.optMembers with
                    | [] => []
                    | ms => ',' :: renderFieldsP ms) ++ '}' :: rest))))))))))) := by
  simp only [chartMiddle, renderString, List.cons_append, List.append_assoc,
    List.singleton_append, List.nil_append]

/-- The value parser recovers the whole rendered chart object. -/
theorem parseP_chartVal (X : ChartSpec) (rest : List Char) (fuel : Nat)
    (hfuel : needChart X ≤ fuel) :
    parseP fuel .val (renderChart X ++ rest) =
      some (.jval X.toJson, rest) := by
  unfold needChart at hfuel
  cases fuel with
  | zero => omega
  | succ g =>
    have hre : renderChart X ++ rest = '{' :: (chartMiddle X ++ '}' :: rest) := by
      simp [renderChart, List.append_assoc]
    rw [hre]
    have hsc : stripChar '}' ((chartMiddle X ++ '}' :: rest).dropWhile isWsChar)
        = none := by
      rw [chartMiddle_normal, dropWhile_nonws (by decide)]
      rfl
    rw [parseP]
    rw [dropWhile_nonws (by decide)]
    dsimp only
    rw [if_pos rfl, hsc]
    dsimp only
    obtain ⟨g1, rfl⟩ : ∃ g1, g = g1 + 1 := ⟨g - 1, by omega⟩
    rw [chartMiddle_normal,
      parseP_chartFields X rest g1 (by omega) (by omega)]
    rfl

/-- A record has at least as many rendered member characters as members. -/
theorem length_renderFieldsP (r : List (String × Prim)) :
    r.length ≤ (renderFieldsP r).length := by
  induction r with
  | nil => simp [renderFieldsP]
  | cons f t ih =>
    obtain ⟨k, v⟩ := f
    cases t with
    | nil => simp [renderFieldsP, renderString]
    | cons f2 t2 =>
      show (f2 :: t2).length + 1 ≤ (renderString k ++ ':' :: renderPrim v ++
        ',' :: renderFieldsP (f2 :: t2)).length
      simp only [renderString, List.length_append, List.length_cons] at ih ⊢
      omega

/-- The element-chain parser depth is bounded by the rendered length. -/
theorem needElemsL_le (rs : List (List (String × Prim))) :
    needElemsL rs ≤ (renderRecordsList rs).length + 2 := by
  induction rs with
  | nil => simp [needElemsL, renderRecordsList]
  | cons r0 tl ih =>
    have hr := length_renderFieldsP r0
    cases tl with
    | nil =>
      show max (needRecordV r0 + 1) (needElemsL [] + 1) ≤
        (renderRecord r0).length + 2
      simp only [needElemsL, needRecordV, renderRecord, List.length_cons,
        List.length_append, List.length_nil] at *
      omega
    | cons r1 tl2 =>
      show max (needRecordV r0 + 1) (needElemsL (r1 :: tl2) + 1) ≤
        (renderRecord r0 ++ ',' :: renderRecordsList (r1 :: tl2)).length + 2
      simp only [needElemsL, needRecordV, renderRecord, List.length_cons,
        List.length_append, List.length_nil] at *
      omega

/-- The chart parser depth is bounded by `JSON.parse`'s fuel. -/
theorem needChart_le (X : ChartSpec) : needChart X ≤ (renderChart X).length + 2 := by
  have hb := needElemsL_le X.data
  simp only [needChart, renderChart, chartMiddle, renderRecords, renderString,
    List.length_append, List.length_cons, List.length_nil] at *
  omega

/-- `JSON.parse` recovers the chart object from its rendering. -/
theorem jsonParse_renderChart (X : ChartSpec) :
    jsonParse (String.mk (renderChart X)) = some X.toJson := by
  unfold jsonParse
  have hd : (String.mk (renderChart X)).data = renderChart X := rfl
  have hl : (String.mk (renderChart X)).length = (renderChart X).length := rfl
  rw [hd, hl]
  have hp := parseP_chartVal X [] ((renderChart X).length + 2)
    (le_trans (needChart_le X) (by omega))
  rw [List.append_nil] at hp
  rw [hp]
  rfl

/-- Trailing whitespace is trimmed from the end. -/
theorem trimEndList_append_ws (l : List Char) (c : Char)
    (hc : isWsChar c = true) :
    trimEndList (l ++ [c]) = trimEndList l := by
  unfold trimEndList
  rw [List.reverse_append]
  simp [List.dropWhile_cons, hc]

/-- A trailing non-whitespace character survives end trimming. -/
theorem trimEndList_append_nonws (l : List Char) (c : Char)
    (hc : isWsChar c = false) :
    trimEndList (l ++ [c]) = l ++ [c] := by
  unfold trimEndList
  rw [List.reverse_append]
  simp [List.dropWhile_cons, hc]

/-- A trailing whitespace character does not change a trim. -/
theorem jsTrimList_append_ws (l : List Char) (c : Char)
    (hc : isWsChar c = true) :
    jsTrimList (l ++ [c]) = jsTrimList l := by
  unfold jsTrimList
  rw [List.dropWhile_append]
  by_cases h : (l.dropWhile isWsChar).isEmpty
  · rw [if_pos h]
    rw [List.isEmpty_iff] at h
    rw [h]
    simp [List.dropWhile_cons, hc, trimEndList]
  · rw [if_neg h, trimEndList_append_ws _ c hc]

/-- Trimming a rendered chart with one leading space recovers it. -/
theorem jsTrimList_space_renderChart (X : ChartSpec) :
    jsTrimList (' ' :: renderChart X) = renderChart X := by
  unfold jsTrimList
  rw [List.dropWhile_cons]
  rw [if_pos (by decide)]
  rw [show renderChart X = ('{' :: chartMiddle X) ++ ['}'] from rfl]
  rw [show (('{' :: chartMiddle X) ++ ['}']).dropWhile isWsChar =
    '{' :: (chartMiddle X ++ ['}']) from by
      rw [List.cons_append, dropWhile_nonws (by decide)]]
  rw [show '{' :: (chartMiddle X ++ ['}']) = ('{' :: chartMiddle X) ++ ['}']
    from by rw [List.cons_append]]
  exact trimEndList_append_nonws _ '}' (by decide)

/-- The index search succeeds immediately on a prefix occurrence. -/
theorem indexOfSub_pos (l pat : List Char) (h : pat.isPrefixOf l = true) :
    indexOfSub l pat = some 0 := by
  rw [indexOfSub.eq_def, if_pos h]

/-- The index search steps over a non-matching head. -/
theorem indexOfSub_cons_neg (c : Char) (l pat : List Char)
    (h : pat.isPrefixOf (c :: l) = false) :
    indexOfSub (c :: l) pat = (indexOfSub l pat).map (fun n => n + 1) := by
  rw [indexOfSub.eq_def, if_neg (by simp [h])]

/-- A pattern free of newlines that is no prefix of a list is no prefix of
that list extended past a newline. -/
theorem isPrefixOf_newline_boundary (pat l1 Y : List Char)
    (hnl : '\n' ∉ pat) (hpre : pat.isPrefixOf l1 = false) :
    pat.isPrefixOf (l1 ++ '\n' :: Y) = false := by
  by_contra hcon
  rw [Bool.not_eq_false, List.isPrefixOf_iff_prefix] at hcon
  by_cases hlen : pat.length ≤ l1.length
  · have hp1 : pat <+: l1 :=
      List.prefix_of_prefix_length_le hcon (List.prefix_append l1 ('\n' :: Y))
        hlen
    rw [← List.isPrefixOf_iff_prefix] at hp1
    rw [hp1] at hpre
    exact Bool.true_eq_false.mp hpre
  · have h2 : l1 ++ ['\n'] <+: l1 ++ '\n' :: Y := by
      refine ⟨Y, ?_⟩
      simp
    have h3 : l1 ++ ['\n'] <+: pat :=
      List.prefix_of_prefix_length_le h2 hcon (by simp; omega)
    exact hnl (h3.subset (by simp))

/-- Position of the sentinel in a composed response: just past the text,
provided the text itself does not contain the sentinel. -/
theorem indexOfSub_boundary (pat l1 l2 : List Char) (hne : pat ≠ [])
    (hnl : '\n' ∉ pat) (hcon : listContains pat l1 = false) :
    indexOfSub (l1 ++ '\n' :: (pat ++ l2)) pat = some (l1.length + 1) := by
  induction l1 with
  | nil =>
    have hp : pat.isPrefixOf ('\n' :: (pat ++ l2)) = false := by
      cases pat with
      | nil => exact absurd rfl hne
      | cons p0 pt =>
        have hp0 : p0 ≠ '\n' := fun h => hnl (h ▸ List.mem_cons_self p0 pt)
        simp [List.isPrefixOf, hp0]
    rw [List.nil_append, indexOfSub_cons_neg '\n' _ pat hp,
      indexOfSub_pos _ _ (isPrefixOf_self_append pat l2)]
    rfl
  | cons c t ih =>
    rw [listContains, Bool.or_eq_false_iff] at hcon
    have hpre : pat.isPrefixOf ((c :: t) ++ '\n' :: (pat ++ l2)) = false :=
      isPrefixOf_newline_boundary pat (c :: t) (pat ++ l2) hnl hcon.1
    rw [List.cons_append,
      indexOfSub_cons_neg c (t ++ '\n' :: (pat ++ l2)) pat hpre, ih hcon.2]
    rfl

/-- The canonical chart fields read back from the parsed chart object. -/
theorem getFields_chart (X : ChartSpec) :
    ({ type := X.toJson.getField "type", data := X.toJson.getField "data",
       xKey := X.toJson.getField "xKey", yKey := X.toJson.getField "yKey",
       dataKey := X.toJson.getField "dataKey",
       nameKey := X.toJson.getField "nameKey",
       title := X.toJson.getField "title" } : ParsedChart) = expectedChart X := by
  obtain ⟨ct, ti, da, xk, yk, nk, dk⟩ := X
  cases xk <;> cases yk <;> cases nk <;> cases dk <;> rfl

/-- C2 counterexample, two parts.  First, the claim quantifies over every
text string, but when the text itself contains the sentinel, the
re-architected parser splits at the text's own occurrence, fails to parse
the suffix, and returns the whole composed string instead of the trimmed
text.  Second, the cited older `openai.ts` parser's lazy regex captures
only up to the FIRST closing brace, so for a chart with a non-empty data
array (here one record with a fractional value) the truncated capture
fails `JSON.parse` and the raw composed string comes back with no chart,
even though the text "Here." is sentinel-free. -/
theorem sentinel_roundtrip_counterexample :
    (parseResponse (composeResponse sentinelText smallChart) =
      { text := composeResponse sentinelText smallChart, chart := none } ∧
     jsTrim sentinelText ≠ composeResponse sentinelText smallChart) ∧
    (strContains "Here." chartSpecIdent = false ∧
     parseResponseA (composeResponse "Here." dataChart) =
       { text := composeResponse "Here." dataChart, chart := none } ∧
     composeResponse "Here." dataChart ≠ jsTrim "Here.") := by
  refine ⟨⟨?_, ?_⟩, ?_, ?_, ?_⟩
  · rfl
  · decide
  · decide
  · rfl
  · decide

/-- C2 (amended): for every text string that does not contain the
sentinel and every chart object of the shape the application composes,
parsing the composed `text + "\nCHART_SPEC: " + JSON(X)` recovers the
trimmed text and the canonical fields of `X`. -/
theorem sentinel_roundtrip (text : String) (X : ChartSpec)
    (h : strContains text chartSpecIdent = false) :
    parseResponse (composeResponse text X) =
      { text := jsTrim text, chart := some (expectedChart X) } := by
  have hdata : (composeResponse text X).data =
      text.data ++ '\n' :: (chartSpecIdent.data ++ ' ' :: renderChart X) := by
    rw [composeResponse, String.data_append, String.data_append,
      List.append_assoc]
    exact congrArg (fun l => text.data ++ l) rfl
  have hcon : listContains chartSpecIdent.data text.data = false := h
  have hidx : indexOfSub (composeResponse text X).data chartSpecIdent.data =
      some (text.data.length + 1) := by
    rw [hdata]
    exact indexOfSub_boundary chartSpecIdent.data text.data
      (' ' :: renderChart X) (by decide) (by decide) hcon
  have htake : (composeResponse text X).data.take (text.data.length + 1) =
      text.data ++ ['\n'] := by
    rw [hdata, List.take_append]
    rfl
  have hdrop : (composeResponse text X).data.drop
      (text.data.length + 1 + chartSpecIdent.length) = ' ' :: renderChart X := by
    rw [hdata, show text.data.length + 1 + chartSpecIdent.length =
      text.data.length + 12 from rfl, List.drop_append]
    rw [show ('\n' :: (chartSpecIdent.data ++ ' ' :: renderChart X)).drop 12 =
      (chartSpecIdent.data ++ ' ' :: renderChart X).drop 11 from rfl]
    exact List.drop_left' (by decide)
  unfold parseResponse
  rw [hidx]
  dsimp only
  rw [htake, hdrop, jsTrimList_append_ws text.data '\n' (by decide),
    jsTrimList_space_renderChart, jsonParse_renderChart]
  dsimp only
  rw [getFields_chart]
  rfl

/-- C2 witness: a concrete no-sentinel text and a chart carrying a
record with a fractional value round trip to the trimmed text and the
canonical fields. -/
theorem sentinel_roundtrip_witness :
    strContains " Here are your results. " chartSpecIdent = false ∧
    parseResponse (composeResponse " Here are your results. " dataChart) =
      { text := jsTrim " Here are your results. ",
        chart := some (expectedChart dataChart) } :=
  ⟨by decide, sentinel_roundtrip " Here are your results. " dataChart
    (by decide)⟩

end ChatExcel
